import Mathlib

/-!
Shallow embedding of the job-orchestration core of the `video-editor`
repository (a browser video cutter).  Strings are modelled as `List Char`
(`Str`); JavaScript numbers are modelled as `ℚ` (the code only performs
exact arithmetic on times, and the spec's invariants are stated up to a
fixed ε = 0.001 s, so the rational idealization of IEEE doubles is used
throughout).  Fallible operations return `Option`.

Embedded sources:
  * `src/lib/time.ts` — `parseTimeToSeconds`, `formatSecondsToTime`
  * `src/App.tsx` — `sanitizeFileName`, `baseNameFromFile`,
    `formatSecondsForName`, `buildOutputName`, `validateSingleCut`,
    `validateAutoSplit`, `validateMultiCut`, `waitForQueueGate` /
    `processJobs` (control skeleton)
-/

namespace VideoEditor

/-- Strings of the embedded program. -/
abbrev Str := List Char

/-- JS whitespace as used by `String.prototype.trim` and the regex class
`\s`, restricted to the code points that can actually occur in this app's
inputs (ASCII whitespace plus NBSP and the BOM). -/
def isJsWhitespace (c : Char) : Bool :=
  c = ' ' || c = '\t' || c = '\n' || c = '\r' || c = '\x0b' || c = '\x0c' || c = ' '

/-- `value.trim()`. -/
def jsTrim (l : Str) : Str :=
  ((l.dropWhile isJsWhitespace).reverse.dropWhile isJsWhitespace).reverse

/-- The decimal-separator class `[.,]` of `time.ts`. -/
def isSepChar (c : Char) : Bool :=
  c = '.' || c = ','

/-- Numeric value of an ASCII digit. -/
def digitVal (c : Char) : ℕ := c.toNat - 48

/-- Value of a digit string, as computed by JS `Number` on an all-digit string. -/
def parseNat (l : Str) : ℕ := l.foldl (fun acc c => 10 * acc + digitVal c) 0

/-- Value of a string of shape `\d+([.,]\d+)?` (JS `Number` after
`normalizeDecimalSeparator`), idealized in `ℚ`. -/
def parseDecimal (l : Str) : ℚ :=
  let ds := l.takeWhile Char.isDigit
  match l.drop ds.length with
  | _ :: frac => (parseNat ds : ℚ) + (parseNat frac : ℚ) / (10 : ℚ) ^ frac.length
  | [] => (parseNat ds : ℚ)

/-- `SECONDS_REGEX = /^\d+(?:[.,]\d+)?$/` as a decidable matcher. -/
def matchSeconds (l : Str) : Bool :=
  let ds := l.takeWhile Char.isDigit
  !ds.isEmpty &&
    (match l.drop ds.length with
     | [] => true
     | c :: rest => isSepChar c && !rest.isEmpty && rest.all Char.isDigit)

/-- The `[0-5]?\d` component of the time regexes: one digit, or two digits the
first of which is `0`–`5`. -/
def matchTwoDigitCapped (l : Str) : Bool :=
  match l with
  | [c] => c.isDigit
  | [c1, c2] => decide ('0' ≤ c1) && decide (c1 ≤ '5') && c2.isDigit
  | _ => false

/-- The `[0-5]?\d(?:[.,]\d+)?` component (seconds with optional fraction). -/
def matchSecFrac (l : Str) : Bool :=
  let ds := l.takeWhile Char.isDigit
  matchTwoDigitCapped ds &&
    (match l.drop ds.length with
     | [] => true
     | c :: rest => isSepChar c && !rest.isEmpty && rest.all Char.isDigit)

/-- Split a string at every `':'`.  Since none of the groups of
`HH_MM_SS_REGEX` / `MM_SS_REGEX` can contain `':'`, those anchored regexes
match exactly when this split yields 3 (resp. 2) parts of the right shapes. -/
def splitColon : Str → List Str
  | [] => [[]]
  | c :: rest =>
    if c = ':' then [] :: splitColon rest
    else
      match splitColon rest with
      | [] => [[c]]
      | p :: ps => (c :: p) :: ps

/-- `parseTimeToSeconds` from `src/lib/time.ts`.  The `Number.isFinite`
guards of the source are always true in the `ℚ` idealization (they can only
fail in JS by float overflow on astronomically long digit strings). -/
def parseTimeToSeconds (input : Str) : Option ℚ :=
  let value := jsTrim input
  if value.isEmpty then none
  else if matchSeconds value then some (parseDecimal value)
  else
    match splitColon value with
    | [h, m, s] =>
      if !h.isEmpty && h.all Char.isDigit && matchTwoDigitCapped m && matchSecFrac s then
        some ((parseNat h : ℚ) * 3600 + (parseNat m : ℚ) * 60 + parseDecimal s)
      else none
    | [m, s] =>
      if !m.isEmpty && m.all Char.isDigit && matchSecFrac s then
        some ((parseNat m : ℚ) * 60 + parseDecimal s)
      else none
    | _ => none

/-- ASCII digit character for `n < 10`. -/
def digitChar (n : ℕ) : Char := Char.ofNat (48 + n)

/-- Fuel-driven base-10 printing (fuel keeps the recursion structural so the
kernel can evaluate it). -/
def natDigitsGo : ℕ → ℕ → Str
  | 0, _ => []
  | fuel + 1, n =>
    if n < 10 then [digitChar n] else natDigitsGo fuel (n / 10) ++ [digitChar (n % 10)]

/-- JS `String(n)` for a natural number. -/
def natDigits (n : ℕ) : Str := natDigitsGo (n + 1) n

/-- JS `s.padStart(k, c)`. -/
def padLeft (c : Char) (k : ℕ) (l : Str) : Str := List.replicate (k - l.length) c ++ l

/-- `String(n).padStart(2, '0')`. -/
def pad2 (n : ℕ) : Str := padLeft '0' 2 (natDigits n)

/-- `String(n).padStart(3, '0')`. -/
def pad3 (n : ℕ) : Str := padLeft '0' 3 (natDigits n)

/-- JS `Math.round` (ties round toward `+∞`; only used on non-negative
arguments in this code). -/
def jsRound (x : ℚ) : ℤ := ⌊x + 1 / 2⌋

/-- The field extraction and padding part of `formatSecondsToTime`, as a pure
function of the (already rounded) total millisecond count. -/
def formatMs (millisecondsTotal : ℕ) (includeMilliseconds : Bool) : Str :=
  let hours := millisecondsTotal / 3600000
  let minutes := millisecondsTotal % 3600000 / 60000
  let seconds := millisecondsTotal % 60000 / 1000
  let milliseconds := millisecondsTotal % 1000
  if !includeMilliseconds || milliseconds == 0 then
    pad2 hours ++ ':' :: (pad2 minutes ++ ':' :: pad2 seconds)
  else
    pad2 hours ++ ':' :: (pad2 minutes ++ ':' :: (pad2 seconds ++ '.' :: pad3 milliseconds))

/-- `formatSecondsToTime` from `src/lib/time.ts` (the non-finite guard of the
source is vacuous in `ℚ`). -/
def formatSecondsToTime (secondsValue : ℚ) (includeMilliseconds : Bool) : Str :=
  if secondsValue < 0 then "00:00:00".data
  else formatMs ((jsRound (secondsValue * 1000)).toNat) includeMilliseconds

theorem formatSecondsToTime_of_nonneg (s : ℚ) (inc : Bool) (h : 0 ≤ s) :
    formatSecondsToTime s inc = formatMs ((jsRound (s * 1000)).toNat) inc := by
  rw [formatSecondsToTime, if_neg (not_lt.2 h)]

/-! ### Output naming (`src/App.tsx` lines 133–177) -/

/-- The character class `[<>:"/\\|?*\x00-\x1F]` of `sanitizeFileName`. -/
def sanitizeBadChar (c : Char) : Bool :=
  c = '<' || c = '>' || c = ':' || c = '"' || c = '/' || c = '\\' || c = '|' ||
    c = '?' || c = '*' || decide (c.toNat ≤ 0x1f)

/-- `.replace(/[<>:"\/\\|?*\x00-\x1F]/g, '_')`. -/
def replaceBadChars (l : Str) : Str :=
  l.map (fun c => if sanitizeBadChar c then '_' else c)

/-- `.replace(/p+/g, r)` for a character class `p`: every maximal run of
`p`-characters becomes a single `r`.  The Boolean argument records whether the
previous character was in the run. -/
def collapseRunsGo (p : Char → Bool) (r : Char) : Bool → Str → Str
  | _, [] => []
  | prev, c :: rest =>
    if p c then
      if prev then collapseRunsGo p r true rest else r :: collapseRunsGo p r true rest
    else c :: collapseRunsGo p r false rest

def collapseRuns (p : Char → Bool) (r : Char) (l : Str) : Str := collapseRunsGo p r false l

/-- `.replace(/^\.+|\.+$/g, '')`: strip leading and trailing dots. -/
def stripDots (l : Str) : Str :=
  ((l.dropWhile (fun c => c == '.')).reverse.dropWhile (fun c => c == '.')).reverse

/-- The cleaning pipeline of `sanitizeFileName` (before the `|| 'clip'`
fallback): trim, replace reserved/control characters by `_`, collapse
whitespace runs to `_`, collapse `_` runs, strip outer dots. -/
def sanitizeCleaned (value : Str) : Str :=
  stripDots (collapseRuns (fun c => c == '_') '_'
    (collapseRuns isJsWhitespace '_' (replaceBadChars (jsTrim value))))

/-- `sanitizeFileName` from `src/App.tsx`. -/
def sanitizeFileName (value : Str) : Str :=
  let cleaned := sanitizeCleaned value
  if cleaned.isEmpty then "clip".data else cleaned

/-- `.replace(/\.[^.]+$/, '')`: drop a final `.ext` (at least one non-dot
character after the last dot), if present. -/
def stripExt (l : Str) : Str :=
  let r := l.reverse
  let tl := r.takeWhile (fun c => c ≠ '.')
  match r.drop tl.length with
  | '.' :: rest => if tl.isEmpty then l else rest.reverse
  | _ => l

/-- `baseNameFromFile` from `src/App.tsx`. -/
def baseNameFromFile (fileName : Str) : Str :=
  let trimmed := jsTrim fileName
  if trimmed.isEmpty then "video".data
  else
    let stripped := stripExt trimmed
    if stripped.isEmpty then "video".data else stripped

/-- `formatSecondsForName` from `src/App.tsx`:
`formatSecondsToTime(Math.max(seconds, 0), true).replace(/[.:]/g, '-')`. -/
def formatSecondsForName (seconds : ℚ) : Str :=
  (formatSecondsToTime (max seconds 0) true).map (fun c => if c == '.' || c == ':' then '-' else c)

/-- `needle` is a prefix of `l` (needle first argument). -/
def strHasPre : Str → Str → Bool
  | [], _ => true
  | _ :: _, [] => false
  | a :: as, b :: bs => a == b && strHasPre as bs

/-- `l.endsWith(needle)` (needle first argument). -/
def strHasSuffix (needle l : Str) : Bool := strHasPre needle.reverse l.reverse

/-- JS `String.prototype.replace` with a `/literal/g` pattern and a plain
replacement string: non-overlapping left-to-right replacement of every
occurrence.  (The `$`-escape interpretation JS applies inside replacement
strings is not modelled; the replacements used by `buildOutputName` are
sanitized name fragments and formatted times.)  The fuel argument (one unit
per consumed character) keeps the recursion structural. -/
def replaceAllGo (needle repl : Str) : ℕ → Str → Str
  | 0, l => l
  | _ + 1, [] => []
  | fuel + 1, c :: rest =>
    if strHasPre needle (c :: rest) && !needle.isEmpty then
      repl ++ replaceAllGo needle repl fuel ((c :: rest).drop needle.length)
    else c :: replaceAllGo needle repl fuel rest

def replaceAll (needle repl l : Str) : Str := replaceAllGo needle repl l.length l

/-- `DEFAULT_NAME_PATTERN` from `src/App.tsx`. -/
def DEFAULT_NAME_PATTERN : Str := "\x7bvideo\x7d_\x7bidx\x7d_\x7bstart\x7d_\x7bend\x7d.mp4".data

def jsToLower (l : Str) : Str := l.map Char.toLower

/-- `buildOutputName` from `src/App.tsx`. -/
def buildOutputName (pattern sourceName : Str) (index : ℕ)
    (startSeconds durationSeconds : ℚ) : Str :=
  let safePattern := if (jsTrim pattern).isEmpty then DEFAULT_NAME_PATTERN else jsTrim pattern
  let endSeconds := startSeconds + durationSeconds
  let idx := pad3 index
  let rawName :=
    replaceAll "\x7bduration\x7d".data (formatSecondsForName durationSeconds)
      (replaceAll "\x7bend\x7d".data (formatSecondsForName endSeconds)
        (replaceAll "\x7bstart\x7d".data (formatSecondsForName startSeconds)
          (replaceAll "\x7bidx\x7d".data idx
            (replaceAll "\x7bvideo\x7d".data (sanitizeFileName (baseNameFromFile sourceName))
              safePattern))))
  let normalized := sanitizeFileName rawName
  if strHasSuffix ".mp4".data (jsToLower normalized) then normalized
  else normalized ++ ".mp4".data


/-! ### Job building and validation (`src/App.tsx` lines 21–26, 1269–1513) -/

/-- `ClipJob` from `src/App.tsx`. -/
structure ClipJob where
  outputName : Str
  startSeconds : ℚ
  durationSeconds : ℚ
  label : Str
deriving DecidableEq

/-- `JobValidation` from `src/App.tsx`. -/
structure JobValidation where
  jobs : List ClipJob
  notices : List Str
deriving DecidableEq

/-- `MultiCutInput` from `src/App.tsx`. -/
structure MultiCutInput where
  id : ℕ
  startInput : Str
  endInput : Str
deriving DecidableEq

/-- `DURATION_EPSILON` from `src/App.tsx`. -/
def DURATION_EPSILON : ℚ := 1 / 1000

/-- The tail of `validateSingleCut` after start parsing and duration
defaulting: the `durationSecondsRaw <= 0` check, the checks against a known
total duration with clamping, and job construction (lines 1308–1345).
Validation failures (`fail(...)` returning `null`) are modelled as `none`;
the Spanish error strings are UI side effects and are dropped. -/
def singleCutWithDuration (fileName outputNamePattern : Str) (videoDurationSeconds : Option ℚ)
    (startSeconds durationSecondsRaw : ℚ) (notices : List Str) : Option JobValidation :=
  if durationSecondsRaw ≤ 0 then none
  else
    match videoDurationSeconds with
    | some vd =>
      if startSeconds ≥ vd then none
      else
        let remaining := vd - startSeconds
        if remaining ≤ DURATION_EPSILON then none
        else if durationSecondsRaw > remaining + DURATION_EPSILON then
          some ⟨[⟨buildOutputName outputNamePattern fileName 0 startSeconds remaining,
                  startSeconds, remaining, "Recorte simple".data⟩],
                notices ++ ["Duration ajustada automáticamente a ".data ++
                  formatSecondsToTime remaining true ++ ".".data]⟩
        else
          some ⟨[⟨buildOutputName outputNamePattern fileName 0 startSeconds durationSecondsRaw,
                  startSeconds, durationSecondsRaw, "Recorte simple".data⟩], notices⟩
    | none =>
      some ⟨[⟨buildOutputName outputNamePattern fileName 0 startSeconds durationSecondsRaw,
              startSeconds, durationSecondsRaw, "Recorte simple".data⟩], notices⟩

/-- `validateSingleCut` from `src/App.tsx` (lines 1269–1346).  The component
state read by the closure (`selectedFile`, the two inputs, the probed video
duration, the name pattern) is passed explicitly. -/
def validateSingleCut (selectedFile : Option Str) (startInput durationInput : Str)
    (videoDurationSeconds : Option ℚ) (outputNamePattern : Str) : Option JobValidation :=
  match selectedFile with
  | none => none
  | some fileName =>
    let startRaw := jsTrim startInput
    let durationRaw := jsTrim durationInput
    match (if startRaw.isEmpty then some 0 else parseTimeToSeconds startRaw) with
    | none => none
    | some startSeconds =>
      if startSeconds < 0 then none
      else
        let notices : List Str :=
          if startRaw.isEmpty then ["Start vacío: se usa 00:00:00.".data] else []
        if durationRaw.isEmpty then
          match videoDurationSeconds with
          | none => none
          | some vd =>
            singleCutWithDuration fileName outputNamePattern videoDurationSeconds startSeconds
              (max (vd - startSeconds) 0)
              (notices ++ ["Duration vacía: se usa hasta el final del video.".data])
        else
          match parseTimeToSeconds durationRaw with
          | none => none
          | some d =>
            singleCutWithDuration fileName outputNamePattern videoDurationSeconds startSeconds d
              notices

/-- The job-generation loop of `validateAutoSplit` (lines 1386–1400):
`for (let cursor = startSeconds, index = 0; cursor < vd - ε; index += 1)`.
The fuel argument keeps the recursion structural; `validateAutoSplit` passes
enough fuel for the loop to reach its exit condition. -/
def autoSplitGo (videoDurationSeconds clipLengthSeconds : ℚ) (outputNamePattern fileName : Str) :
    ℕ → ℚ → ℕ → List ClipJob
  | 0, _, _ => []
  | fuel + 1, cursor, index =>
    if cursor < videoDurationSeconds - DURATION_EPSILON then
      let remaining := videoDurationSeconds - cursor
      let durationSeconds := min clipLengthSeconds remaining
      ⟨buildOutputName outputNamePattern fileName index cursor durationSeconds, cursor,
        durationSeconds, "Auto clip ".data ++ natDigits (index + 1)⟩ ::
        autoSplitGo videoDurationSeconds clipLengthSeconds outputNamePattern fileName fuel
          (cursor + clipLengthSeconds) (index + 1)
    else []

/-- An upper bound (plus one) on the number of iterations of the auto-split
loop, used as fuel. -/
def autoSplitFuel (videoDurationSeconds startSeconds clipLengthSeconds : ℚ) : ℕ :=
  (⌈(videoDurationSeconds - startSeconds) / clipLengthSeconds⌉).toNat + 1

/-- `validateAutoSplit` from `src/App.tsx` (lines 1348–1407). -/
def validateAutoSplit (selectedFile : Option Str) (autoStartInput clipLengthInput : Str)
    (videoDurationSeconds : Option ℚ) (outputNamePattern : Str) : Option JobValidation :=
  match selectedFile with
  | none => none
  | some fileName =>
    match videoDurationSeconds with
    | none => none
    | some vd =>
      match (if (jsTrim autoStartInput).isEmpty then some 0
             else parseTimeToSeconds autoStartInput),
            parseTimeToSeconds clipLengthInput with
      | some startSeconds, some clipLengthSeconds =>
        if startSeconds < 0 then none
        else if clipLengthSeconds ≤ 0 then none
        else if startSeconds ≥ vd then none
        else
          let jobs := autoSplitGo vd clipLengthSeconds outputNamePattern fileName
            (autoSplitFuel vd startSeconds clipLengthSeconds) startSeconds 0
          if jobs.isEmpty then none else some ⟨jobs, []⟩
      | _, _ => none

/-- Outcome of processing one row of the multi-cut table (lines 1428–1506):
the row is skipped (emitting notices), fails validation, or contributes one
job and a new `previousEndSeconds`. -/
inductive RowStep
  | skip (notices : List Str)
  | failRow
  | accept (job : ClipJob) (newPreviousEnd : ℚ) (notices : List Str)
deriving DecidableEq

/-- One iteration of the row loop of `validateMultiCut`, as a pure step
function.  The notices carried by `skip`/`accept` are the ones emitted for
this row, in emission order. -/
def multiCutRowStep (videoDurationSeconds : Option ℚ) (outputNamePattern fileName : Str)
    (cut : MultiCutInput) (index : ℕ) (previousEndSeconds : ℚ) : RowStep :=
  let startRaw := jsTrim cut.startInput
  let endRaw := jsTrim cut.endInput
  if startRaw.isEmpty && endRaw.isEmpty then
    .skip ["Corte ".data ++ natDigits (index + 1) ++ ": fila vacía, se omite.".data]
  else
    match (if startRaw.isEmpty then some previousEndSeconds else parseTimeToSeconds startRaw) with
    | none => .failRow
    | some startSeconds =>
      let ns1 : List Str :=
        if startRaw.isEmpty then
          ["Corte ".data ++ natDigits (index + 1) ++ ": inicio vacío, se usa ".data ++
            (if index = 0 then "00:00:00".data else formatSecondsToTime previousEndSeconds true) ++
            ".".data]
        else []
      match (if endRaw.isEmpty then
               videoDurationSeconds.map fun vd =>
                 (vd, ns1 ++ ["Corte ".data ++ natDigits (index + 1) ++ ": fin vacío, se usa ".data ++
                   formatSecondsToTime vd true ++ ".".data])
             else (parseTimeToSeconds endRaw).map fun e => (e, ns1)) with
      | none => .failRow
      | some (endSecondsRaw, ns2) =>
        if startSeconds < 0 then .failRow
        else
          match videoDurationSeconds with
          | some vd =>
            if startSeconds ≥ vd then
              if endRaw.isEmpty && decide (startSeconds ≤ vd + DURATION_EPSILON) then
                .skip (ns2 ++ ["Corte ".data ++ natDigits (index + 1) ++
                  ": inicia en el final del video, se omite.".data])
              else .failRow
            else
              let effectiveEnd := if endSecondsRaw > vd + DURATION_EPSILON then vd
                else endSecondsRaw
              let ns3 := if endSecondsRaw > vd + DURATION_EPSILON then
                  ns2 ++ ["Corte ".data ++ natDigits (index + 1) ++ ": fin ajustado a ".data ++
                    formatSecondsToTime vd true ++ " para no exceder el video.".data]
                else ns2
              if effectiveEnd ≤ startSeconds + DURATION_EPSILON then
                if endRaw.isEmpty then
                  .skip (ns3 ++ ["Corte ".data ++ natDigits (index + 1) ++
                    ": sin duración efectiva, se omite.".data])
                else .failRow
              else
                .accept ⟨buildOutputName outputNamePattern fileName index startSeconds
                    (effectiveEnd - startSeconds), startSeconds, effectiveEnd - startSeconds,
                    "Corte ".data ++ natDigits (index + 1)⟩
                  effectiveEnd ns3
          | none =>
            if endSecondsRaw ≤ startSeconds + DURATION_EPSILON then
              if endRaw.isEmpty then
                .skip (ns2 ++ ["Corte ".data ++ natDigits (index + 1) ++
                  ": sin duración efectiva, se omite.".data])
              else .failRow
            else
              .accept ⟨buildOutputName outputNamePattern fileName index startSeconds
                  (endSecondsRaw - startSeconds), startSeconds, endSecondsRaw - startSeconds,
                  "Corte ".data ++ natDigits (index + 1)⟩
                endSecondsRaw ns2

/-- The row loop of `validateMultiCut`, threading the row index,
`previousEndSeconds`, and the job/notice accumulators, followed by the final
`jobs.length === 0` check (lines 1508–1512). -/
def validateMultiCutGo (videoDurationSeconds : Option ℚ) (outputNamePattern fileName : Str) :
    List MultiCutInput → ℕ → ℚ → List ClipJob → List Str → Option JobValidation
  | [], _, _, jobs, notices => if jobs.isEmpty then none else some ⟨jobs, notices⟩
  | cut :: rest, index, previousEndSeconds, jobs, notices =>
    match multiCutRowStep videoDurationSeconds outputNamePattern fileName cut index
        previousEndSeconds with
    | .failRow => none
    | .skip ns =>
      validateMultiCutGo videoDurationSeconds outputNamePattern fileName rest (index + 1)
        previousEndSeconds jobs (notices ++ ns)
    | .accept job newPrev ns =>
      validateMultiCutGo videoDurationSeconds outputNamePattern fileName rest (index + 1)
        newPrev (jobs ++ [job]) (notices ++ ns)

/-- `validateMultiCut` from `src/App.tsx` (lines 1409–1513). -/
def validateMultiCut (selectedFile : Option Str) (multiCuts : List MultiCutInput)
    (videoDurationSeconds : Option ℚ) (outputNamePattern : Str) : Option JobValidation :=
  match selectedFile with
  | none => none
  | some fileName =>
    if multiCuts.isEmpty then none
    else validateMultiCutGo videoDurationSeconds outputNamePattern fileName multiCuts 0 0 [] []

/-! ### Queue runner control skeleton (`src/App.tsx` lines 1515–1664)

`processJobs` iterates over the validated job list; before each job it runs
`waitForQueueGate`, which polls while `paused` is set and throws the
cancellation error once `cancelled` is observed; the `catch` block converts
the throw into an interrupted run, keeping the outputs accumulated so far.
The embedding abstracts one job's successful transcode+verify to appending
the job to the output accumulator (engine and verifier are external
collaborators), drops the pause polling (which only delays the gate check),
and reads the cancel flag through the oracle `cancelledAt`, whose value at
`i` is the flag's state at the gate check preceding job `i` — faithful to
the cooperative-checkpoint semantics of the ref cell `queueControlRef`. -/

/-- The message of the error thrown by `waitForQueueGate` on cancellation
(line 1521). -/
def CANCEL_MESSAGE : Str := "Procesamiento cancelado por el usuario.".data

/-- Terminal status of a run: normal completion, or interruption by a thrown
error carrying this message (cancellation is the distinguished case). -/
inductive RunOutcome
  | completed
  | interrupted (message : Str)
deriving DecidableEq

def processJobsGo (cancelledAt : ℕ → Bool) :
    List ClipJob → ℕ → List ClipJob → List ClipJob × RunOutcome
  | [], _, outputs => (outputs, .completed)
  | job :: rest, index, outputs =>
    if cancelledAt index then (outputs, .interrupted CANCEL_MESSAGE)
    else processJobsGo cancelledAt rest (index + 1) (outputs ++ [job])

/-- The job loop of `processJobs` (lines 1583–1635 plus the catch block). -/
def processJobs (cancelledAt : ℕ → Bool) (jobs : List ClipJob) :
    List ClipJob × RunOutcome :=
  processJobsGo cancelledAt jobs 0 []

/-! ### Helper lemmas: characters, trimming, digit strings -/

theorem digitChar_isDigit : ∀ n, n < 10 → (digitChar n).isDigit = true := by decide

theorem digitVal_digitChar : ∀ n, n < 10 → digitVal (digitChar n) = n := by decide

theorem not_ws_of_isDigit {c : Char} (h : c.isDigit = true) : isJsWhitespace c = false := by
  revert h
  simp only [Char.isDigit, isJsWhitespace, decide_eq_true_eq, Bool.or_eq_true,
    Bool.and_eq_true, Bool.or_eq_false_iff, decide_eq_false_iff_not]
  rintro ⟨h1, h2⟩
  refine ⟨⟨⟨⟨⟨⟨?_, ?_⟩, ?_⟩, ?_⟩, ?_⟩, ?_⟩, ?_⟩ <;>
    · rintro rfl
      revert h1 h2
      decide

theorem dropWhile_eq_self_of_all {p : Char → Bool} {l : Str}
    (h : ∀ c ∈ l, p c = false) : l.dropWhile p = l := by
  cases l with
  | nil => rfl
  | cons c rest => rw [List.dropWhile_cons_of_neg]
                   simp [h c (List.mem_cons_self _ _)]

theorem jsTrim_eq_self {l : Str} (h : ∀ c ∈ l, isJsWhitespace c = false) : jsTrim l = l := by
  unfold jsTrim
  rw [dropWhile_eq_self_of_all h, dropWhile_eq_self_of_all, List.reverse_reverse]
  intro c hc
  exact h c (List.mem_reverse.1 hc)

theorem jsTrim_of_digits {l : Str} (h : ∀ c ∈ l, c.isDigit = true) : jsTrim l = l :=
  jsTrim_eq_self fun c hc => not_ws_of_isDigit (h c hc)

theorem takeWhile_all_append {p : Char → Bool} {d : Str} (r : Str)
    (h : ∀ c ∈ d, p c = true) : List.takeWhile p (d ++ r) = d ++ List.takeWhile p r := by
  induction d with
  | nil => rfl
  | cons c rest ih =>
    rw [List.cons_append, List.takeWhile_cons_of_pos (h c (List.mem_cons_self _ _)), ih, List.cons_append]
    intro x hx
    exact h x (List.mem_cons_of_mem _ hx)

theorem takeWhile_eq_self_of_all {p : Char → Bool} {l : Str}
    (h : ∀ c ∈ l, p c = true) : List.takeWhile p l = l := by
  have := takeWhile_all_append (p := p) (d := l) [] h
  simpa using this

theorem parseNat_append_singleton (d : Str) (c : Char) :
    parseNat (d ++ [c]) = 10 * parseNat d + digitVal c := by
  simp [parseNat, List.foldl_append]

theorem parseNat_replicate_zero (k : ℕ) (l : Str) :
    parseNat (List.replicate k '0' ++ l) = parseNat l := by
  induction k with
  | zero => rfl
  | succ n ih =>
    rw [List.replicate_succ, List.cons_append]
    show parseNat (List.replicate n '0' ++ l) = parseNat l
    exact ih

theorem natDigitsGo_spec : ∀ fuel n, n < 10 ^ (fuel + 1) →
    natDigitsGo (fuel + 1) n ≠ [] ∧ (∀ c ∈ natDigitsGo (fuel + 1) n, c.isDigit = true) ∧
      parseNat (natDigitsGo (fuel + 1) n) = n := by
  intro fuel
  induction fuel with
  | zero =>
    intro n hn
    have h10 : n < 10 := by simpa using hn
    rw [natDigitsGo, if_pos h10]
    refine ⟨by simp, ?_, ?_⟩
    · intro c hc
      rw [List.mem_singleton] at hc
      subst hc
      exact digitChar_isDigit n h10
    · show parseNat [digitChar n] = n
      simp [parseNat, digitVal_digitChar n h10]
  | succ f ih =>
    intro n hn
    by_cases h10 : n < 10
    · rw [natDigitsGo, if_pos h10]
      refine ⟨by simp, ?_, ?_⟩
      · intro c hc
        rw [List.mem_singleton] at hc
        subst hc
        exact digitChar_isDigit n h10
      · show parseNat [digitChar n] = n
        simp [parseNat, digitVal_digitChar n h10]
    · rw [natDigitsGo, if_neg h10]
      have hdiv : n / 10 < 10 ^ (f + 1) := by
        rw [Nat.div_lt_iff_lt_mul (by norm_num)]
        calc n < 10 ^ (f + 1 + 1) := hn
          _ = 10 ^ (f + 1) * 10 := by ring
      obtain ⟨hne, hdig, hval⟩ := ih (n / 10) hdiv
      refine ⟨by simp, ?_, ?_⟩
      · intro c hc
        rcases List.mem_append.1 hc with h | h
        · exact hdig c h
        · rw [List.mem_singleton] at h
          subst h
          exact digitChar_isDigit _ (Nat.mod_lt _ (by norm_num))
      · rw [parseNat_append_singleton, hval, digitVal_digitChar _ (Nat.mod_lt _ (by norm_num))]
        exact Nat.div_add_mod n 10

theorem natDigits_spec (n : ℕ) :
    natDigits n ≠ [] ∧ (∀ c ∈ natDigits n, c.isDigit = true) ∧ parseNat (natDigits n) = n := by
  have hlt : n < 10 ^ (n + 1) :=
    lt_of_lt_of_le (Nat.lt_pow_self (by norm_num) n) (Nat.pow_le_pow_right (by norm_num) (by omega))
  exact natDigitsGo_spec n n hlt

theorem padLeft_digits (k : ℕ) {l : Str} (h : ∀ c ∈ l, c.isDigit = true) :
    ∀ c ∈ padLeft '0' k l, c.isDigit = true := by
  intro c hc
  rcases List.mem_append.1 hc with h0 | h0
  · rw [List.eq_of_mem_replicate h0]
    decide
  · exact h c h0

theorem parseNat_padLeft (k : ℕ) (l : Str) : parseNat (padLeft '0' k l) = parseNat l :=
  parseNat_replicate_zero _ l

theorem pad2_digits (n : ℕ) : ∀ c ∈ pad2 n, c.isDigit = true :=
  padLeft_digits 2 (natDigits_spec n).2.1

theorem pad2_ne_nil (n : ℕ) : pad2 n ≠ [] := by
  have := (natDigits_spec n).1
  unfold pad2 padLeft
  intro h
  rcases List.append_eq_nil.1 h with ⟨-, h2⟩
  exact this h2

theorem parseNat_pad2 (n : ℕ) : parseNat (pad2 n) = n := by
  rw [pad2, parseNat_padLeft]
  exact (natDigits_spec n).2.2

theorem parseNat_pad3 (n : ℕ) : parseNat (pad3 n) = n := by
  rw [pad3, parseNat_padLeft]
  exact (natDigits_spec n).2.2

set_option maxRecDepth 4000 in
theorem matchTwoDigitCapped_pad2 : ∀ n, n < 60 → matchTwoDigitCapped (pad2 n) = true := by decide

theorem pad3_digits (n : ℕ) : ∀ c ∈ pad3 n, c.isDigit = true :=
  padLeft_digits 3 (natDigits_spec n).2.1

set_option maxRecDepth 40000 in
theorem pad3_ne_nil : ∀ n, n < 1000 → (pad3 n).isEmpty = false := by decide

set_option maxRecDepth 40000 in
theorem pad3_length : ∀ n, n < 1000 → (pad3 n).length = 3 := by decide

/-! ### Helper lemmas: `splitColon` -/

/-- Inverse of `splitColon`: interleave the parts with `':'`. -/
def joinColon : List Str → Str
  | [] => []
  | [p] => p
  | p :: ps => p ++ ':' :: joinColon ps

theorem splitColon_ne_nil (l : Str) : splitColon l ≠ [] := by
  cases l with
  | nil => simp [splitColon]
  | cons c rest =>
    rw [splitColon]
    split
    · simp
    · cases h : splitColon rest <;> simp

theorem joinColon_splitColon (l : Str) : joinColon (splitColon l) = l := by
  induction l with
  | nil => rfl
  | cons c rest ih =>
    rw [splitColon]
    by_cases hc : c = ':'
    · rw [if_pos hc]
      cases h : splitColon rest with
      | nil => exact absurd h (splitColon_ne_nil rest)
      | cons p ps =>
        subst hc
        show [] ++ ':' :: joinColon (p :: ps) = ':' :: rest
        rw [h] at ih
        simp [ih]
    · rw [if_neg hc]
      cases h : splitColon rest with
      | nil => exact absurd h (splitColon_ne_nil rest)
      | cons p ps =>
        rw [h] at ih
        cases ps with
        | nil => simpa [joinColon] using congrArg (c :: ·) ih
        | cons q qs =>
          show (c :: p) ++ ':' :: joinColon (q :: qs) = c :: rest
          simpa [joinColon] using congrArg (c :: ·) ih

theorem splitColon_of_colonfree {l : Str} (h : ∀ c ∈ l, c ≠ ':') : splitColon l = [l] := by
  induction l with
  | nil => rfl
  | cons c rest ih =>
    rw [splitColon, if_neg (h c (List.mem_cons_self _ _)), ih fun x hx => h x (List.mem_cons_of_mem _ hx)]

theorem splitColon_append {d : Str} (r : Str) (h : ∀ c ∈ d, c ≠ ':') :
    splitColon (d ++ ':' :: r) = d :: splitColon r := by
  induction d with
  | nil => simp [splitColon]
  | cons c rest ih =>
    rw [List.cons_append, splitColon, if_neg (h c (List.mem_cons_self _ _)),
      ih fun x hx => h x (List.mem_cons_of_mem _ hx)]

theorem mem_splitColon_colonfree {l : Str} : ∀ p ∈ splitColon l, ∀ c ∈ p, c ≠ ':' := by
  induction l with
  | nil => simp [splitColon]
  | cons c rest ih =>
    rw [splitColon]
    by_cases hc : c = ':'
    · rw [if_pos hc]
      intro p hp
      rcases List.mem_cons.1 hp with h | h
      · subst h; simp
      · exact ih p h
    · rw [if_neg hc]
      cases h : splitColon rest with
      | nil => exact absurd h (splitColon_ne_nil rest)
      | cons q qs =>
        intro p hp
        rcases List.mem_cons.1 hp with h2 | h2
        · subst h2
          intro x hx
          rcases List.mem_cons.1 hx with h3 | h3
          · subst h3; exact hc
          · exact ih q (h ▸ List.mem_cons_self _ _) x h3
        · exact ih p (h ▸ List.mem_cons_of_mem _ h2)

theorem not_colon_of_isDigit {c : Char} (h : c.isDigit = true) : c ≠ ':' := by
  rintro rfl
  revert h
  decide

theorem ne_nil_of_isEmpty_false {α : Type} {l : List α} (h : l.isEmpty = false) : l ≠ [] := by
  cases l with
  | nil => simp at h
  | cons c rest => simp

theorem isEmpty_false_of_ne_nil {α : Type} {l : List α} (h : l ≠ []) : l.isEmpty = false := by
  cases l with
  | nil => exact absurd rfl h
  | cons c rest => rfl

/-! ### Helper lemmas: the time-string matchers -/

theorem isDigit_of_between {c : Char} (h1 : '0' ≤ c) (h2 : c ≤ '5') : c.isDigit = true := by
  simp only [Char.isDigit]
  have h3 : c ≤ '9' := le_trans h2 (by decide)
  rw [Char.le_def] at h1 h3
  simp only [Bool.and_eq_true, decide_eq_true_eq]
  exact ⟨h1, h3⟩

theorem matchTwoDigitCapped_digits {l : Str} (h : matchTwoDigitCapped l = true) :
    ∀ c ∈ l, c.isDigit = true := by
  match l with
  | [] => simp [matchTwoDigitCapped] at h
  | [c] =>
    intro x hx
    rw [List.mem_singleton] at hx
    subst hx
    simpa [matchTwoDigitCapped] using h
  | [c1, c2] =>
    simp only [matchTwoDigitCapped, Bool.and_eq_true, decide_eq_true_eq] at h
    intro x hx
    rcases List.mem_cons.1 hx with h1 | h1
    · subst h1
      exact isDigit_of_between h.1.1 h.1.2
    · rw [List.mem_singleton] at h1
      subst h1
      exact h.2
  | c1 :: c2 :: c3 :: rest => simp [matchTwoDigitCapped] at h

theorem matchSecFrac_inv {l : Str} (h : matchSecFrac l = true) :
    ∃ t, l = l.takeWhile Char.isDigit ++ t ∧
      matchTwoDigitCapped (l.takeWhile Char.isDigit) = true ∧
      (t = [] ∨ ∃ c rest, t = c :: rest ∧ isSepChar c = true ∧ rest ≠ [] ∧
        ∀ x ∈ rest, x.isDigit = true) := by
  obtain ⟨t, ht⟩ := (List.takeWhile_prefix (l := l) (p := Char.isDigit))
  unfold matchSecFrac at h
  rw [Bool.and_eq_true] at h
  obtain ⟨h1, h2⟩ := h
  refine ⟨t, ht.symm, h1, ?_⟩
  · have hdrop := List.drop_left (l.takeWhile Char.isDigit) t
    rw [ht] at hdrop
    rw [hdrop] at h2
    cases t with
    | nil => exact Or.inl rfl
    | cons c rest =>
      simp only [Bool.and_eq_true, List.all_eq_true, Bool.not_eq_true'] at h2
      exact Or.inr ⟨c, rest, rfl, h2.1.1, ne_nil_of_isEmpty_false h2.1.2, h2.2⟩

theorem matchSecFrac_chars {l : Str} (h : matchSecFrac l = true) :
    ∀ x ∈ l, x.isDigit = true ∨ isSepChar x = true := by
  obtain ⟨t, hl, hcap, htail⟩ := matchSecFrac_inv h
  intro x hx
  rw [hl] at hx
  rcases List.mem_append.1 hx with h1 | h1
  · exact Or.inl (List.mem_takeWhile_imp h1)
  · rcases htail with rfl | ⟨c, rest, rfl, hsep, -, hdig⟩
    · cases h1
    · rcases List.mem_cons.1 h1 with h2 | h2
      · subst h2; exact Or.inr hsep
      · exact Or.inl (hdig x h2)

theorem sep_not_colon {c : Char} (h : isSepChar c = true) : c ≠ ':' := by
  revert h
  unfold isSepChar
  simp only [Bool.or_eq_true, decide_eq_true_eq]
  rintro (rfl | rfl) <;> decide

theorem sep_not_ws {c : Char} (h : isSepChar c = true) : isJsWhitespace c = false := by
  revert h
  unfold isSepChar
  simp only [Bool.or_eq_true, decide_eq_true_eq]
  rintro (rfl | rfl) <;> decide

theorem matchSecFrac_not_colon {l : Str} (h : matchSecFrac l = true) : ∀ x ∈ l, x ≠ ':' := by
  intro x hx
  rcases matchSecFrac_chars h x hx with h1 | h1
  · exact not_colon_of_isDigit h1
  · exact sep_not_colon h1

theorem matchSecFrac_not_ws {l : Str} (h : matchSecFrac l = true) :
    ∀ x ∈ l, isJsWhitespace x = false := by
  intro x hx
  rcases matchSecFrac_chars h x hx with h1 | h1
  · exact not_ws_of_isDigit h1
  · exact sep_not_ws h1

theorem matchSeconds_append_colon {d : Str} (r : Str) (hd : ∀ x ∈ d, x.isDigit = true) :
    matchSeconds (d ++ ':' :: r) = false := by
  unfold matchSeconds
  simp only [takeWhile_all_append _ hd,
    List.takeWhile_cons_of_neg (by decide : ¬(Char.isDigit ':' = true)), List.append_nil,
    List.drop_left]
  simp [isSepChar]

/-! ### Helper lemmas: evaluating the parser -/

theorem parseDecimal_of_digits {l : Str} (h : ∀ c ∈ l, c.isDigit = true) :
    parseDecimal l = (parseNat l : ℚ) := by
  unfold parseDecimal
  simp only [takeWhile_eq_self_of_all h, List.drop_length]

theorem parseDecimal_append_frac (d f : Str) (c : Char) (hd : ∀ x ∈ d, x.isDigit = true)
    (hc : ¬ c.isDigit = true) :
    parseDecimal (d ++ c :: f) = (parseNat d : ℚ) + (parseNat f : ℚ) / (10 : ℚ) ^ f.length := by
  unfold parseDecimal
  simp only [takeWhile_all_append _ hd, List.takeWhile_cons_of_neg hc, List.append_nil,
    List.drop_left]

theorem parseTimeToSeconds_of_seconds {l t : Str} (heq : jsTrim l = t)
    (h : matchSeconds t = true) : parseTimeToSeconds l = some (parseDecimal t) := by
  have hne : t.isEmpty = false := by
    cases t with
    | nil => simp [matchSeconds] at h
    | cons c rest => rfl
  unfold parseTimeToSeconds
  simp only [heq, hne, h, Bool.false_eq_true, if_false, if_true]

theorem parseTimeToSeconds_digits {l : Str} (hne : l ≠ []) (h : ∀ c ∈ l, c.isDigit = true) :
    parseTimeToSeconds l = some ((parseNat l : ℚ)) := by
  have hm : matchSeconds l = true := by
    unfold matchSeconds
    simp only [takeWhile_eq_self_of_all h, List.drop_length]
    simp [hne]
  rw [parseTimeToSeconds_of_seconds (jsTrim_of_digits h) hm, parseDecimal_of_digits h]

theorem parseTimeToSeconds_hms_of_trim {l a b c : Str}
    (heq : jsTrim l = a ++ ':' :: (b ++ ':' :: c)) (ha : a ≠ [])
    (had : ∀ x ∈ a, x.isDigit = true) (hb : matchTwoDigitCapped b = true)
    (hsf : matchSecFrac c = true) :
    parseTimeToSeconds l =
      some ((parseNat a : ℚ) * 3600 + (parseNat b : ℚ) * 60 + parseDecimal c) := by
  have hbd := matchTwoDigitCapped_digits hb
  have hms : matchSeconds (a ++ ':' :: (b ++ ':' :: c)) = false :=
    matchSeconds_append_colon _ had
  have hsplit : splitColon (a ++ ':' :: (b ++ ':' :: c)) = [a, b, c] := by
    rw [splitColon_append _ fun x hx => not_colon_of_isDigit (had x hx),
      splitColon_append _ fun x hx => not_colon_of_isDigit (hbd x hx),
      splitColon_of_colonfree (matchSecFrac_not_colon hsf)]
  have hne : (a ++ ':' :: (b ++ ':' :: c)).isEmpty = false := by
    cases a with
    | nil => exact absurd rfl ha
    | cons y ys => rfl
  unfold parseTimeToSeconds
  simp only [heq, hne, hms, Bool.false_eq_true, if_false, hsplit]
  rw [if_pos]
  simp only [Bool.and_eq_true, Bool.not_eq_true', List.all_eq_true]
  exact ⟨⟨⟨isEmpty_false_of_ne_nil ha, had⟩, hb⟩, hsf⟩

theorem parseTimeToSeconds_ms_of_trim {l a c : Str} (heq : jsTrim l = a ++ ':' :: c)
    (ha : a ≠ []) (had : ∀ x ∈ a, x.isDigit = true) (hsf : matchSecFrac c = true) :
    parseTimeToSeconds l = some ((parseNat a : ℚ) * 60 + parseDecimal c) := by
  have hms : matchSeconds (a ++ ':' :: c) = false := matchSeconds_append_colon _ had
  have hsplit : splitColon (a ++ ':' :: c) = [a, c] := by
    rw [splitColon_append _ fun x hx => not_colon_of_isDigit (had x hx),
      splitColon_of_colonfree (matchSecFrac_not_colon hsf)]
  have hne : (a ++ ':' :: c).isEmpty = false := by
    cases a with
    | nil => exact absurd rfl ha
    | cons y ys => rfl
  unfold parseTimeToSeconds
  simp only [heq, hne, hms, Bool.false_eq_true, if_false, hsplit]
  rw [if_pos]
  simp only [Bool.and_eq_true, Bool.not_eq_true', List.all_eq_true]
  exact ⟨⟨isEmpty_false_of_ne_nil ha, had⟩, hsf⟩

theorem parseTimeToSeconds_hms (a b c : Str) (ha : a ≠ []) (had : ∀ x ∈ a, x.isDigit = true)
    (hb : matchTwoDigitCapped b = true) (hsf : matchSecFrac c = true) :
    parseTimeToSeconds (a ++ ':' :: (b ++ ':' :: c)) =
      some ((parseNat a : ℚ) * 3600 + (parseNat b : ℚ) * 60 + parseDecimal c) := by
  have hbd := matchTwoDigitCapped_digits hb
  have htrim : jsTrim (a ++ ':' :: (b ++ ':' :: c)) = a ++ ':' :: (b ++ ':' :: c) := by
    apply jsTrim_eq_self
    intro x hx
    rcases List.mem_append.1 hx with h1 | h1
    · exact not_ws_of_isDigit (had x h1)
    · rcases List.mem_cons.1 h1 with rfl | h1
      · decide
      · rcases List.mem_append.1 h1 with h2 | h2
        · exact not_ws_of_isDigit (hbd x h2)
        · rcases List.mem_cons.1 h2 with rfl | h2
          · decide
          · exact matchSecFrac_not_ws hsf x h2
  exact parseTimeToSeconds_hms_of_trim htrim ha had hb hsf

theorem matchSecFrac_of_capped {l : Str} (h : matchTwoDigitCapped l = true) :
    matchSecFrac l = true := by
  unfold matchSecFrac
  simp only [takeWhile_eq_self_of_all (matchTwoDigitCapped_digits h), List.drop_length]
  simp [h]

theorem matchSecFrac_append_frac {d f : Str} {c : Char} (hd : matchTwoDigitCapped d = true)
    (hc : isSepChar c = true) (hf : f ≠ []) (hfd : ∀ x ∈ f, x.isDigit = true) :
    matchSecFrac (d ++ c :: f) = true := by
  have hcd : ¬ c.isDigit = true := by
    revert hc
    unfold isSepChar
    simp only [Bool.or_eq_true, decide_eq_true_eq]
    rintro (rfl | rfl) <;> decide
  unfold matchSecFrac
  simp only [takeWhile_all_append _ (matchTwoDigitCapped_digits hd),
    List.takeWhile_cons_of_neg hcd, List.append_nil, List.drop_left, hd, Bool.true_and]
  simp only [Bool.and_eq_true, Bool.not_eq_true', List.all_eq_true]
  exact ⟨⟨hc, isEmpty_false_of_ne_nil hf⟩, hfd⟩

theorem parse_formatMs_true (N : ℕ) :
    parseTimeToSeconds (formatMs N true) = some ((N : ℚ) / 1000) := by
  have hM : N % 3600000 / 60000 < 60 := by omega
  have hS : N % 60000 / 1000 < 60 := by omega
  have hL : N % 1000 < 1000 := by omega
  have hsum : 3600000 * (N / 3600000) + 60000 * (N % 3600000 / 60000) +
      1000 * (N % 60000 / 1000) + N % 1000 = N := by omega
  unfold formatMs
  simp only [Bool.not_true, Bool.false_or]
  by_cases hzero : N % 1000 = 0
  · rw [if_pos (by simpa using hzero)]
    rw [parseTimeToSeconds_hms _ _ _ (pad2_ne_nil _) (pad2_digits _)
      (matchTwoDigitCapped_pad2 _ hM) (matchSecFrac_of_capped (matchTwoDigitCapped_pad2 _ hS))]
    rw [parseDecimal_of_digits (pad2_digits _), parseNat_pad2, parseNat_pad2, parseNat_pad2]
    congr 1
    have hcast : (3600000 : ℚ) * ((N / 3600000 : ℕ) : ℚ) +
        60000 * ((N % 3600000 / 60000 : ℕ) : ℚ) + 1000 * ((N % 60000 / 1000 : ℕ) : ℚ) +
        ((N % 1000 : ℕ) : ℚ) = (N : ℚ) := by exact_mod_cast congrArg (fun k : ℕ => (k : ℚ)) hsum
    have hL0 : ((N % 1000 : ℕ) : ℚ) = 0 := by exact_mod_cast hzero
    rw [eq_div_iff (by norm_num : (1000 : ℚ) ≠ 0)]
    linear_combination hcast - hL0
  · rw [if_neg (by simpa using hzero)]
    have hfne : pad3 (N % 1000) ≠ [] := by
      have := pad3_ne_nil (N % 1000) hL
      intro hcon
      rw [hcon] at this
      simp at this
    rw [parseTimeToSeconds_hms _ _ _ (pad2_ne_nil _) (pad2_digits _)
      (matchTwoDigitCapped_pad2 _ hM)
      (matchSecFrac_append_frac (matchTwoDigitCapped_pad2 _ hS) (by decide) hfne (pad3_digits _))]
    rw [parseDecimal_append_frac _ _ _ (pad2_digits _) (by decide), parseNat_pad2, parseNat_pad2,
      parseNat_pad2, parseNat_pad3]
    congr 1
    rw [pad3_length _ hL]
    have hcast : (3600000 : ℚ) * ((N / 3600000 : ℕ) : ℚ) +
        60000 * ((N % 3600000 / 60000 : ℕ) : ℚ) + 1000 * ((N % 60000 / 1000 : ℕ) : ℚ) +
        ((N % 1000 : ℕ) : ℚ) = (N : ℚ) := by exact_mod_cast congrArg (fun k : ℕ => (k : ℚ)) hsum
    rw [eq_div_iff (by norm_num : (1000 : ℚ) ≠ 0)]
    linear_combination hcast

theorem parseDecimal_nonneg (l : Str) : 0 ≤ parseDecimal l := by
  unfold parseDecimal
  rcases hd : List.drop (List.takeWhile Char.isDigit l).length l with _ | ⟨c, f⟩ <;>
    simp only [hd] <;> positivity

theorem parseTimeToSeconds_nonneg {l : Str} {v : ℚ} (h : parseTimeToSeconds l = some v) :
    0 ≤ v := by
  simp only [parseTimeToSeconds] at h
  by_cases h1 : (jsTrim l).isEmpty = true
  · rw [if_pos h1] at h
    exact Option.noConfusion h
  rw [if_neg h1] at h
  by_cases h2 : matchSeconds (jsTrim l) = true
  · rw [if_pos h2, Option.some_inj] at h
    subst h
    exact parseDecimal_nonneg _
  rw [if_neg h2] at h
  split at h
  · split at h
    · rw [Option.some_inj] at h
      subst h
      exact add_nonneg (add_nonneg (by positivity) (by positivity)) (parseDecimal_nonneg _)
    · exact Option.noConfusion h
  · split at h
    · rw [Option.some_inj] at h
      subst h
      exact add_nonneg (by positivity) (parseDecimal_nonneg _)
    · exact Option.noConfusion h
  · exact Option.noConfusion h

theorem parse_formatSecondsToTime (s : ℚ) (hs : 0 ≤ s) :
    parseTimeToSeconds (formatSecondsToTime s true) =
      some (((jsRound (s * 1000)).toNat : ℚ) / 1000) := by
  rw [formatSecondsToTime_of_nonneg _ _ hs, parse_formatMs_true]

theorem jsRound_nonneg {x : ℚ} (hx : 0 ≤ x) : 0 ≤ jsRound x := by
  rw [jsRound]
  refine Int.le_floor.2 ?_
  push_cast
  linarith

/-- C7: Format→parse round-trips exactly to millisecond resolution: for every
finite non-negative number of seconds `s`,
`parseTimeToSeconds (formatSecondsToTime s true)` is non-`null` and equals `s`
when both are rounded to the nearest millisecond (`jsRound (· * 1000)`);
consequently, for every string accepted by one of the three grammars,
formatting its parse and re-parsing is a fixed point at millisecond
precision. -/
theorem parseFormatRoundTripMs :
    (∀ s : ℚ, 0 ≤ s → ∃ v, parseTimeToSeconds (formatSecondsToTime s true) = some v ∧
        jsRound (v * 1000) = jsRound (s * 1000)) ∧
      ∀ (l : Str) (v : ℚ), parseTimeToSeconds l = some v →
        ∃ v2, parseTimeToSeconds (formatSecondsToTime v true) = some v2 ∧
          jsRound (v2 * 1000) = jsRound (v * 1000) := by
  have key : ∀ s : ℚ, 0 ≤ s → ∃ v, parseTimeToSeconds (formatSecondsToTime s true) = some v ∧
      jsRound (v * 1000) = jsRound (s * 1000) := by
    intro s hs
    have hnn : 0 ≤ jsRound (s * 1000) := jsRound_nonneg (by positivity)
    refine ⟨((jsRound (s * 1000)).toNat : ℚ) / 1000, parse_formatSecondsToTime s hs, ?_⟩
    have h1 : (((jsRound (s * 1000)).toNat : ℚ) / 1000) * 1000 =
        (((jsRound (s * 1000)).toNat : ℤ) : ℚ) := by
      push_cast
      field_simp
    rw [h1]
    unfold jsRound at hnn ⊢
    rw [Int.floor_int_add, show ⌊(1 / 2 : ℚ)⌋ = 0 from by norm_num, add_zero,
      Int.toNat_of_nonneg hnn]
  exact ⟨key, fun l v hv => key v (parseTimeToSeconds_nonneg hv)⟩

/-- Witness for C7 at `s = 69/2` (34.5 s). -/
theorem parseFormatRoundTripMs_witness :
    ∃ v, parseTimeToSeconds (formatSecondsToTime (69 / 2) true) = some v ∧
      jsRound (v * 1000) = jsRound ((69 / 2 : ℚ) * 1000) :=
  parseFormatRoundTripMs.1 (69 / 2) (by norm_num)

/-! ### The three time grammars, stated from the spec's words (for C6) -/

/-- A nonempty string of ASCII digits (`\d+`). -/
def DigitStr (l : Str) : Prop := l ≠ [] ∧ ∀ c ∈ l, c.isDigit = true

/-- Spec grammar 1: plain seconds with optional decimal part, `.` or `,` as
decimal separator. -/
def PlainSecondsGrammar (l : Str) : Prop :=
  DigitStr l ∨ ∃ d sep f, DigitStr d ∧ DigitStr f ∧ (sep = '.' ∨ sep = ',') ∧ l = d ++ sep :: f

/-- A minute/second component: one digit, or two digits whose tens digit is
`0`–`5` (so the component's value is in range, at most 59). -/
def CappedComponent (l : Str) : Prop :=
  (∃ c, l = [c] ∧ c.isDigit = true) ∨
    (∃ c1 c2, l = [c1, c2] ∧ '0' ≤ c1 ∧ c1 ≤ '5' ∧ c2.isDigit = true)

/-- A seconds component with optional decimal fraction. -/
def SecondsComponent (l : Str) : Prop :=
  CappedComponent l ∨
    ∃ d sep f, CappedComponent d ∧ (sep = '.' ∨ sep = ',') ∧ DigitStr f ∧ l = d ++ sep :: f

/-- Spec grammar 3: `HH:MM:SS[.mmm]`. -/
def HMSGrammar (l : Str) : Prop :=
  ∃ a b c, DigitStr a ∧ CappedComponent b ∧ SecondsComponent c ∧ l = a ++ ':' :: (b ++ ':' :: c)

/-- Spec grammar 2: `MM:SS[.mmm]`. -/
def MSGrammar (l : Str) : Prop :=
  ∃ a c, DigitStr a ∧ SecondsComponent c ∧ l = a ++ ':' :: c

theorem isSepChar_iff {c : Char} : isSepChar c = true ↔ (c = '.' ∨ c = ',') := by
  unfold isSepChar
  simp

theorem sep_not_digit {c : Char} (h : c = '.' ∨ c = ',') : ¬ c.isDigit = true := by
  rcases h with rfl | rfl <;> decide

theorem matchSeconds_inv {l : Str} (h : matchSeconds l = true) :
    ∃ t, l = l.takeWhile Char.isDigit ++ t ∧ l.takeWhile Char.isDigit ≠ [] ∧
      (t = [] ∨ ∃ c rest, t = c :: rest ∧ isSepChar c = true ∧ rest ≠ [] ∧
        ∀ x ∈ rest, x.isDigit = true) := by
  obtain ⟨t, ht⟩ := (List.takeWhile_prefix (l := l) (p := Char.isDigit))
  unfold matchSeconds at h
  rw [Bool.and_eq_true] at h
  obtain ⟨h1, h2⟩ := h
  have hdrop := List.drop_left (l.takeWhile Char.isDigit) t
  rw [ht] at hdrop
  rw [hdrop] at h2
  refine ⟨t, ht.symm, ne_nil_of_isEmpty_false (by simpa using h1), ?_⟩
  cases t with
  | nil => exact Or.inl rfl
  | cons c rest =>
    simp only [Bool.and_eq_true, List.all_eq_true, Bool.not_eq_true'] at h2
    exact Or.inr ⟨c, rest, rfl, h2.1.1, ne_nil_of_isEmpty_false h2.1.2, h2.2⟩

theorem matchSeconds_iff {l : Str} : matchSeconds l = true ↔ PlainSecondsGrammar l := by
  constructor
  · intro h
    obtain ⟨t, hl, hne, htail⟩ := matchSeconds_inv h
    have hdig : ∀ c ∈ l.takeWhile Char.isDigit, c.isDigit = true :=
      fun c hc => List.mem_takeWhile_imp hc
    rcases htail with rfl | ⟨c, rest, rfl, hsep, hrne, hrdig⟩
    · rw [List.append_nil] at hl
      exact Or.inl ⟨by rw [hl]; exact hne, by rw [hl]; exact hdig⟩
    · exact Or.inr ⟨_, c, rest, ⟨hne, hdig⟩, ⟨hrne, hrdig⟩, isSepChar_iff.1 hsep, hl⟩
  · rintro (⟨hne, hdig⟩ | ⟨d, sep, f, ⟨hdne, hdd⟩, ⟨hfne, hfd⟩, hsep, rfl⟩)
    · unfold matchSeconds
      simp only [takeWhile_eq_self_of_all hdig, List.drop_length]
      simp [hne]
    · unfold matchSeconds
      simp only [takeWhile_all_append _ hdd, List.takeWhile_cons_of_neg (sep_not_digit hsep),
        List.append_nil, List.drop_left]
      simp only [Bool.and_eq_true, Bool.not_eq_true', List.all_eq_true]
      exact ⟨isEmpty_false_of_ne_nil hdne,
        ⟨isSepChar_iff.2 hsep, isEmpty_false_of_ne_nil hfne⟩, hfd⟩

theorem matchTwoDigitCapped_iff {l : Str} : matchTwoDigitCapped l = true ↔ CappedComponent l := by
  constructor
  · intro h
    match l with
    | [] => simp [matchTwoDigitCapped] at h
    | [c] => exact Or.inl ⟨c, rfl, by simpa [matchTwoDigitCapped] using h⟩
    | [c1, c2] =>
      simp only [matchTwoDigitCapped, Bool.and_eq_true, decide_eq_true_eq] at h
      exact Or.inr ⟨c1, c2, rfl, h.1.1, h.1.2, h.2⟩
    | c1 :: c2 :: c3 :: rest => simp [matchTwoDigitCapped] at h
  · rintro (⟨c, rfl, hc⟩ | ⟨c1, c2, rfl, h1, h2, h3⟩)
    · simpa [matchTwoDigitCapped] using hc
    · simp [matchTwoDigitCapped, h1, h2, h3]

theorem matchSecFrac_iff {l : Str} : matchSecFrac l = true ↔ SecondsComponent l := by
  constructor
  · intro h
    obtain ⟨t, hl, hcap, htail⟩ := matchSecFrac_inv h
    rcases htail with rfl | ⟨c, rest, rfl, hsep, hrne, hrdig⟩
    · rw [List.append_nil] at hl
      exact Or.inl (matchTwoDigitCapped_iff.1 (by rw [hl]; exact hcap))
    · exact Or.inr ⟨_, c, rest, matchTwoDigitCapped_iff.1 hcap, isSepChar_iff.1 hsep,
        ⟨hrne, hrdig⟩, hl⟩
  · rintro (hcap | ⟨d, sep, f, hdcap, hsep, ⟨hfne, hfd⟩, rfl⟩)
    · exact matchSecFrac_of_capped (matchTwoDigitCapped_iff.2 hcap)
    · exact matchSecFrac_append_frac (matchTwoDigitCapped_iff.2 hdcap) (isSepChar_iff.2 hsep)
        hfne hfd

theorem DigitStr_not_ws {l : Str} (h : DigitStr l) : ∀ x ∈ l, isJsWhitespace x = false :=
  fun x hx => not_ws_of_isDigit (h.2 x hx)

/-- C6, forward half: every accepted input's trimmed form lies in one of the
three grammars. -/
theorem parse_isSome_grammar {l : Str} (h : (parseTimeToSeconds l).isSome = true) :
    PlainSecondsGrammar (jsTrim l) ∨ HMSGrammar (jsTrim l) ∨ MSGrammar (jsTrim l) := by
  simp only [parseTimeToSeconds] at h
  by_cases h1 : (jsTrim l).isEmpty = true
  · rw [if_pos h1] at h
    simp at h
  rw [if_neg h1] at h
  by_cases h2 : matchSeconds (jsTrim l) = true
  · exact Or.inl (matchSeconds_iff.1 h2)
  rw [if_neg h2] at h
  split at h
  · rename_i x a b c heq
    split at h
    · rename_i hcond
      simp only [Bool.and_eq_true, Bool.not_eq_true', List.all_eq_true] at hcond
      refine Or.inr (Or.inl ⟨a, b, c, ⟨ne_nil_of_isEmpty_false hcond.1.1.1, hcond.1.1.2⟩,
        matchTwoDigitCapped_iff.1 hcond.1.2, matchSecFrac_iff.1 hcond.2, ?_⟩)
      have hj := joinColon_splitColon (jsTrim l)
      rw [heq] at hj
      exact hj.symm
    · simp at h
  · rename_i x a c heq
    split at h
    · rename_i hcond
      simp only [Bool.and_eq_true, Bool.not_eq_true', List.all_eq_true] at hcond
      refine Or.inr (Or.inr ⟨a, c, ⟨ne_nil_of_isEmpty_false hcond.1.1, hcond.1.2⟩,
        matchSecFrac_iff.1 hcond.2, ?_⟩)
      have hj := joinColon_splitColon (jsTrim l)
      rw [heq] at hj
      exact hj.symm
    · simp at h
  · simp at h

/-- C6, backward half: every input whose trimmed form lies in one of the
three grammars is accepted. -/
theorem parse_isSome_of_grammar {l : Str}
    (h : PlainSecondsGrammar (jsTrim l) ∨ HMSGrammar (jsTrim l) ∨ MSGrammar (jsTrim l)) :
    (parseTimeToSeconds l).isSome = true := by
  rcases h with hp | ⟨a, b, c, ha, hb, hc, heq⟩ | ⟨a, c, ha, hc, heq⟩
  · rw [parseTimeToSeconds_of_seconds rfl (matchSeconds_iff.2 hp)]
    rfl
  · rw [parseTimeToSeconds_hms_of_trim heq ha.1 ha.2 (matchTwoDigitCapped_iff.2 hb)
      (matchSecFrac_iff.2 hc)]
    rfl
  · rw [parseTimeToSeconds_ms_of_trim heq ha.1 ha.2 (matchSecFrac_iff.2 hc)]
    rfl

/-- C6: `parseTimeToSeconds` accepts exactly the three grammars — plain
seconds with optional decimal part, `MM:SS[.mmm]`, and `HH:MM:SS[.mmm]`, with
`.` or `,` as decimal separator — and returns `null` for every other input,
including the empty string, negative numbers written as plain text, malformed
separators, and out-of-range minute/second components.  (The fixed trial
order — plain seconds, then `HH:MM:SS`, then `MM:SS` — is the structure of
the definition; the three grammars are mutually exclusive, so it does not
affect the accepted language.) -/
theorem parseAcceptsExactlyThreeGrammars :
    (∀ l : Str, (parseTimeToSeconds l).isSome = true ↔
      (PlainSecondsGrammar (jsTrim l) ∨ HMSGrammar (jsTrim l) ∨ MSGrammar (jsTrim l))) ∧
      parseTimeToSeconds "".data = none ∧
      parseTimeToSeconds "-5".data = none ∧
      parseTimeToSeconds "1..5".data = none ∧
      parseTimeToSeconds "1::2".data = none ∧
      parseTimeToSeconds "0:61:05".data = none ∧
      parseTimeToSeconds "0:00:61".data = none :=
  ⟨fun _ => ⟨parse_isSome_grammar, parse_isSome_of_grammar⟩,
    by decide, by decide, by decide, by decide, by decide, by decide⟩

/-! ### Helper lemmas: sanitization and output naming (C3, C10) -/

theorem mem_replaceBadChars {v : Str} {c : Char} (h : c ∈ replaceBadChars v) :
    sanitizeBadChar c = false := by
  unfold replaceBadChars at h
  obtain ⟨x, -, hx⟩ := List.mem_map.1 h
  by_cases hb : sanitizeBadChar x = true
  · rw [if_pos hb] at hx
    subst hx
    decide
  · rw [if_neg hb] at hx
    subst hx
    simpa using hb

theorem mem_collapseRunsGo {p : Char → Bool} {r : Char} {c : Char} :
    ∀ {prev : Bool} {l : Str}, c ∈ collapseRunsGo p r prev l →
      c = r ∨ (c ∈ l ∧ p c = false) := by
  intro prev l
  induction l generalizing prev with
  | nil => intro h; simp [collapseRunsGo] at h
  | cons x rest ih =>
    intro h
    unfold collapseRunsGo at h
    by_cases hp : p x = true
    · rw [if_pos hp] at h
      by_cases hprev : prev = true
      · rw [hprev, if_pos rfl] at h
        rcases ih h with h1 | ⟨h1, h2⟩
        · exact Or.inl h1
        · exact Or.inr ⟨List.mem_cons_of_mem _ h1, h2⟩
      · rw [Bool.not_eq_true] at hprev
        rw [hprev] at h
        simp only [Bool.false_eq_true, if_false] at h
        rcases List.mem_cons.1 h with h1 | h1
        · exact Or.inl h1
        · rcases ih h1 with h2 | ⟨h2, h3⟩
          · exact Or.inl h2
          · exact Or.inr ⟨List.mem_cons_of_mem _ h2, h3⟩
    · rw [if_neg hp] at h
      rcases List.mem_cons.1 h with h1 | h1
      · subst h1
        exact Or.inr ⟨List.mem_cons_self _ _, by simpa using hp⟩
      · rcases ih h1 with h2 | ⟨h2, h3⟩
        · exact Or.inl h2
        · exact Or.inr ⟨List.mem_cons_of_mem _ h2, h3⟩

theorem mem_collapseRuns {p : Char → Bool} {r : Char} {c : Char} {l : Str}
    (h : c ∈ collapseRuns p r l) : c = r ∨ (c ∈ l ∧ p c = false) :=
  mem_collapseRunsGo h

theorem mem_stripDots {l : Str} {c : Char} (h : c ∈ stripDots l) : c ∈ l := by
  unfold stripDots at h
  rw [List.mem_reverse] at h
  have h1 := (List.dropWhile_sublist _).subset h
  rw [List.mem_reverse] at h1
  exact (List.dropWhile_sublist _).subset h1

/-- Every character of the cleaned name is neither a reserved/control
character nor whitespace. -/
theorem mem_sanitizeCleaned {v : Str} {c : Char} (h : c ∈ sanitizeCleaned v) :
    sanitizeBadChar c = false ∧ isJsWhitespace c = false := by
  unfold sanitizeCleaned at h
  have h1 := mem_stripDots h
  rcases mem_collapseRuns h1 with rfl | ⟨h2, -⟩
  · exact ⟨by decide, by decide⟩
  rcases mem_collapseRuns h2 with rfl | ⟨h3, hws⟩
  · exact ⟨by decide, by decide⟩
  exact ⟨mem_replaceBadChars h3, hws⟩

theorem mem_sanitizeFileName {v : Str} {c : Char} (h : c ∈ sanitizeFileName v) :
    sanitizeBadChar c = false ∧ isJsWhitespace c = false := by
  unfold sanitizeFileName at h
  by_cases hc : (sanitizeCleaned v).isEmpty = true
  · rw [if_pos hc] at h
    have h4 : c ∈ ['c', 'l', 'i', 'p'] := h
    fin_cases h4 <;> exact ⟨by decide, by decide⟩
  · rw [if_neg hc] at h
    exact mem_sanitizeCleaned h

theorem sanitizeFileName_ne_nil (v : Str) : sanitizeFileName v ≠ [] := by
  unfold sanitizeFileName
  by_cases hc : (sanitizeCleaned v).isEmpty = true
  · rw [if_pos hc]
    simp
  · rw [if_neg hc]
    exact ne_nil_of_isEmpty_false (Bool.not_eq_true _ ▸ hc)

theorem strHasPre_append_self (t y : Str) : strHasPre t (t ++ y) = true := by
  induction t with
  | nil => rfl
  | cons c rest ih => simpa [strHasPre] using ih

theorem strHasSuffix_append_self (x t : Str) : strHasSuffix t (x ++ t) = true := by
  unfold strHasSuffix
  rw [List.reverse_append]
  exact strHasPre_append_self _ _

/-- Shared facts about `buildOutputName`: the result is non-empty, ends in
`.mp4` case-insensitively, and contains no reserved/control/whitespace
character. -/
theorem buildOutputName_props (pattern src : Str) (idx : ℕ) (s d : ℚ) :
    buildOutputName pattern src idx s d ≠ [] ∧
      strHasSuffix ".mp4".data (jsToLower (buildOutputName pattern src idx s d)) = true ∧
      ∀ c ∈ buildOutputName pattern src idx s d,
        sanitizeBadChar c = false ∧ isJsWhitespace c = false := by
  unfold buildOutputName
  set n := sanitizeFileName (replaceAll "\x7bduration\x7d".data (formatSecondsForName d)
    (replaceAll "\x7bend\x7d".data (formatSecondsForName (s + d))
      (replaceAll "\x7bstart\x7d".data (formatSecondsForName s)
        (replaceAll "\x7bidx\x7d".data (pad3 idx)
          (replaceAll "\x7bvideo\x7d".data (sanitizeFileName (baseNameFromFile src))
            (if (jsTrim pattern).isEmpty = true then DEFAULT_NAME_PATTERN
             else jsTrim pattern)))))) with hn
  by_cases hs : strHasSuffix ".mp4".data (jsToLower n) = true
  · rw [if_pos hs]
    exact ⟨sanitizeFileName_ne_nil _, hs, fun c hc => mem_sanitizeFileName hc⟩
  · rw [if_neg hs]
    refine ⟨by simp, ?_, ?_⟩
    · unfold jsToLower
      rw [List.map_append]
      have : List.map Char.toLower ".mp4".data = ".mp4".data := by decide
      rw [this]
      exact strHasSuffix_append_self _ _
    · intro c hc
      rcases List.mem_append.1 hc with h1 | h1
      · exact mem_sanitizeFileName h1
      · have h4 : c ∈ ['.', 'm', 'p', '4'] := h1
        fin_cases h4 <;> exact ⟨by decide, by decide⟩

theorem buildOutputName_default_of_blank (pattern src : Str) (idx : ℕ) (s d : ℚ)
    (hp : jsTrim pattern = []) :
    buildOutputName pattern src idx s d = buildOutputName DEFAULT_NAME_PATTERN src idx s d := by
  unfold buildOutputName
  rw [hp]
  rw [show jsTrim DEFAULT_NAME_PATTERN = DEFAULT_NAME_PATTERN from by decide]
  rfl

/-- C10 (implicit): `buildOutputName` is total and never yields an unusable
name — the result is non-empty and ends in `.mp4` case-insensitively for
every input; an empty or all-whitespace pattern falls back to the default
pattern; and when the sanitization pipeline removes every character, the
name falls back to `clip` (shown both in general, as non-emptiness of
`sanitizeFileName`, and concretely for an input that cleans to nothing). -/
theorem buildOutputNameTotal :
    (∀ (pattern src : Str) (idx : ℕ) (s d : ℚ),
        buildOutputName pattern src idx s d ≠ [] ∧
        strHasSuffix ".mp4".data (jsToLower (buildOutputName pattern src idx s d)) = true) ∧
      (∀ (pattern src : Str) (idx : ℕ) (s d : ℚ), jsTrim pattern = [] →
        buildOutputName pattern src idx s d = buildOutputName DEFAULT_NAME_PATTERN src idx s d) ∧
      (∀ v : Str, sanitizeFileName v ≠ []) ∧
      sanitizeCleaned " ... ".data = [] ∧ sanitizeFileName " ... ".data = "clip".data :=
  ⟨fun pattern src idx s d =>
      ⟨(buildOutputName_props pattern src idx s d).1, (buildOutputName_props pattern src idx s d).2.1⟩,
    buildOutputName_default_of_blank, sanitizeFileName_ne_nil, by decide, by decide⟩

/-- Witness for C10: the blank-pattern conjunct applied at a concrete
all-whitespace pattern. -/
theorem buildOutputNameTotal_witness :
    buildOutputName "  ".data "v.mp4".data 0 0 1 =
      buildOutputName DEFAULT_NAME_PATTERN "v.mp4".data 0 0 1 :=
  buildOutputNameTotal.2.1 "  ".data "v.mp4".data 0 0 1 (by decide)

theorem formatSecondsForName_eval (s : ℚ) (N : ℕ) (h0 : 0 ≤ s)
    (hN : jsRound (s * 1000) = (N : ℤ)) :
    formatSecondsForName s =
      (formatMs N true).map (fun c => if c == '.' || c == ':' then '-' else c) := by
  unfold formatSecondsForName
  rw [max_eq_left h0, formatSecondsToTime_of_nonneg _ _ h0, hN, Int.toNat_natCast]

/-- C3 counterexample: at pattern `{start}#x` with start 0 s and duration
1 s, the output is `00-00-00#x.mp4`.  The character `#` — outside
`[A-Za-z0-9._-]` — survives sanitization (only `<>:"/\\|?*`, control
characters and whitespace are replaced), and the `{start}` token of an
integral time renders as `00-00-00` with no `-000` milliseconds part. -/
theorem buildOutputNameSanitizationCounterexample :
    buildOutputName "\x7bstart\x7d#x".data "v.mp4".data 0 0 1 = "00-00-00#x.mp4".data ∧
      '#' ∈ "00-00-00#x.mp4".data ∧ '#'.isAlphanum = false ∧ '#' ∉ ['.', '_', '-'] := by
  refine ⟨?_, by decide, by decide, by decide⟩
  have e0 : formatSecondsForName (0 : ℚ) = "00-00-00".data := by
    rw [formatSecondsForName_eval _ 0 le_rfl (by unfold jsRound; push_cast; norm_num)]
    decide
  have e1 : formatSecondsForName (0 + 1 : ℚ) = "00-00-01".data := by
    rw [formatSecondsForName_eval _ 1000 (by norm_num)
      (by unfold jsRound; push_cast; norm_num [Int.floor_eq_iff])]
    decide
  have e2 : formatSecondsForName (1 : ℚ) = "00-00-01".data := by
    rw [formatSecondsForName_eval _ 1000 (by norm_num)
      (by unfold jsRound; push_cast; norm_num [Int.floor_eq_iff])]
    decide
  unfold buildOutputName
  simp only [e0, e1, e2]
  decide

/-- C3 (amended): `buildOutputName` substitutes the five tokens `{video}`,
`{idx}` (zero-padded 3-digit index), `{start}`, `{end}`, `{duration}`; each
time token is rendered as `formatSecondsToTime` with `.`/`:` replaced by
`-` — `HH-MM-SS`, with a `-mmm` suffix only when the millisecond part is
non-zero; sanitization replaces the characters `<>:"/\\|?*`, control
characters, and whitespace with `_` (collapsing runs, stripping outer dots,
falling back to `clip` when empty) — other characters outside
`[A-Za-z0-9._-]`, such as `#`, are kept — and a `.mp4` suffix is appended
unless the name already ends in `.mp4` case-insensitively.  Stated as: no
reserved/control/whitespace character ever survives, the result always ends
in `.mp4` case-insensitively, and the full pipeline on an exemplar with all
five tokens. -/
theorem buildOutputNameAmended :
    (∀ (pattern src : Str) (idx : ℕ) (s d : ℚ),
        (buildOutputName pattern src idx s d).all
          (fun c => !(sanitizeBadChar c || isJsWhitespace c)) = true ∧
        strHasSuffix ".mp4".data (jsToLower (buildOutputName pattern src idx s d)) = true) ∧
      buildOutputName "\x7bvideo\x7d_\x7bidx\x7d_\x7bstart\x7d_\x7bend\x7d_\x7bduration\x7d".data
          "My Clip.mov".data 0 (5 / 2) 3 =
        "My_Clip_000_00-00-02-500_00-00-05-500_00-00-03.mp4".data := by
  constructor
  · intro pattern src idx s d
    obtain ⟨-, hsuf, hchars⟩ := buildOutputName_props pattern src idx s d
    refine ⟨?_, hsuf⟩
    rw [List.all_eq_true]
    intro c hc
    have hcc := hchars c hc
    simp [hcc.1, hcc.2]
  · have e1 : formatSecondsForName (5 / 2 : ℚ) = "00-00-02-500".data := by
      rw [formatSecondsForName_eval _ 2500 (by norm_num)
        (by unfold jsRound; push_cast; norm_num [Int.floor_eq_iff])]
      decide
    have e2 : formatSecondsForName (5 / 2 + 3 : ℚ) = "00-00-05-500".data := by
      rw [formatSecondsForName_eval _ 5500 (by norm_num)
        (by unfold jsRound; push_cast; norm_num [Int.floor_eq_iff])]
      decide
    have e3 : formatSecondsForName (3 : ℚ) = "00-00-03".data := by
      rw [formatSecondsForName_eval _ 3000 (by norm_num)
        (by unfold jsRound; push_cast; norm_num [Int.floor_eq_iff])]
      decide
    unfold buildOutputName
    simp only [e1, e2, e3]
    decide

/-! ### Helper lemmas: single-cut validation (C5, C1) -/

theorem eps_pos : (0 : ℚ) < DURATION_EPSILON := by norm_num [DURATION_EPSILON]

/-- Evaluation of `validateSingleCut` when both inputs are non-blank and
parse successfully. -/
theorem validateSingleCut_eq (file startInput durationInput pattern : Str) (vd : Option ℚ)
    (s d : ℚ) (hs0 : jsTrim startInput ≠ [])
    (hsp : parseTimeToSeconds (jsTrim startInput) = some s)
    (hd0 : jsTrim durationInput ≠ [])
    (hdp : parseTimeToSeconds (jsTrim durationInput) = some d) :
    validateSingleCut (some file) startInput durationInput vd pattern =
      if s < 0 then none else singleCutWithDuration file pattern vd s d [] := by
  unfold validateSingleCut
  simp only [isEmpty_false_of_ne_nil hs0, isEmpty_false_of_ne_nil hd0, Bool.false_eq_true,
    if_false, hsp, hdp]

/-- Every job produced by the tail of single-cut validation satisfies the Job
invariant (given that the start has already passed the `startSeconds < 0`
check). -/
theorem singleCutWithDuration_inv {file pattern : Str} {vd : Option ℚ} {s draw : ℚ}
    {ns : List Str} {res : JobValidation} (hs : 0 ≤ s)
    (h : singleCutWithDuration file pattern vd s draw ns = some res) :
    ∀ j ∈ res.jobs, 0 ≤ j.startSeconds ∧ 0 < j.durationSeconds ∧
      ∀ T, vd = some T →
        j.startSeconds < T ∧ j.startSeconds + j.durationSeconds ≤ T + DURATION_EPSILON := by
  simp only [singleCutWithDuration] at h
  split at h
  · exact absurd h (by simp)
  rename_i hdpos
  push_neg at hdpos
  split at h
  · rename_i T
    split at h
    · exact absurd h (by simp)
    rename_i hsT
    push_neg at hsT
    split at h
    · exact absurd h (by simp)
    rename_i hrem
    push_neg at hrem
    split at h
    · rename_i hclamp
      rw [Option.some_inj] at h
      subst h
      intro j hj
      rw [List.mem_singleton] at hj
      subst hj
      refine ⟨hs, ?_, ?_⟩
      · show (0 : ℚ) < T - s
        linarith [eps_pos]
      · intro T2 hT2
        rw [Option.some_inj] at hT2
        subst hT2
        refine ⟨hsT, ?_⟩
        show s + (T - s) ≤ T + DURATION_EPSILON
        linarith [eps_pos]
    · rename_i hclamp
      push_neg at hclamp
      rw [Option.some_inj] at h
      subst h
      intro j hj
      rw [List.mem_singleton] at hj
      subst hj
      refine ⟨hs, hdpos, ?_⟩
      intro T2 hT2
      rw [Option.some_inj] at hT2
      subst hT2
      refine ⟨hsT, ?_⟩
      show s + draw ≤ T + DURATION_EPSILON
      have hcl : draw ≤ T - s + DURATION_EPSILON := hclamp
      linarith
  · rw [Option.some_inj] at h
    subst h
    intro j hj
    rw [List.mem_singleton] at hj
    subst hj
    exact ⟨hs, hdpos, fun T hT => Option.noConfusion hT⟩

/-- Every job produced by `validateSingleCut` satisfies the Job invariant. -/
theorem validateSingleCut_inv {selectedFile : Option Str} {startInput durationInput : Str}
    {vd : Option ℚ} {pattern : Str} {res : JobValidation}
    (h : validateSingleCut selectedFile startInput durationInput vd pattern = some res) :
    ∀ j ∈ res.jobs, 0 ≤ j.startSeconds ∧ 0 < j.durationSeconds ∧
      ∀ T, vd = some T →
        j.startSeconds < T ∧ j.startSeconds + j.durationSeconds ≤ T + DURATION_EPSILON := by
  simp only [validateSingleCut] at h
  split at h
  · exact absurd h (by simp)
  split at h
  · exact absurd h (by simp)
  rename_i s hsparse
  split at h
  · exact absurd h (by simp)
  rename_i hsneg
  push_neg at hsneg
  split at h
  · split at h
    · exact absurd h (by simp)
    · exact singleCutWithDuration_inv hsneg h
  · split at h
    · exact absurd h (by simp)
    · exact singleCutWithDuration_inv hsneg h

/-- C5: single-range validation with known total duration `T`: start `< 0`
fails, start `≥ T` fails, remaining span `≤ ε` fails, and otherwise exactly
one job is produced whose duration is clamped to the remaining span exactly
when the request exceeds it by more than ε — with a notice exactly in that
case; in particular `T = 100`, start `90`, duration `20` yields one job of
duration `10` plus a notice; start `100` fails; start `-1` fails (its text
does not even parse). -/
theorem validateSingleCutKnownTotal :
    (∀ (file startInput durationInput pattern : Str) (T s d : ℚ),
      jsTrim startInput ≠ [] → parseTimeToSeconds (jsTrim startInput) = some s →
      jsTrim durationInput ≠ [] → parseTimeToSeconds (jsTrim durationInput) = some d →
      (s < 0 →
        validateSingleCut (some file) startInput durationInput (some T) pattern = none) ∧
      (0 ≤ s → T ≤ s →
        validateSingleCut (some file) startInput durationInput (some T) pattern = none) ∧
      (0 ≤ s → s < T → T - s ≤ DURATION_EPSILON →
        validateSingleCut (some file) startInput durationInput (some T) pattern = none) ∧
      (0 ≤ s → s < T → DURATION_EPSILON < T - s → 0 < d →
        validateSingleCut (some file) startInput durationInput (some T) pattern =
          some ⟨[⟨buildOutputName pattern file 0 s
              (if d > T - s + DURATION_EPSILON then T - s else d), s,
              (if d > T - s + DURATION_EPSILON then T - s else d), "Recorte simple".data⟩],
            if d > T - s + DURATION_EPSILON then
              ["Duration ajustada automáticamente a ".data ++
                formatSecondsToTime (T - s) true ++ ".".data]
            else []⟩)) ∧
      (∃ res, validateSingleCut (some "v.mp4".data) "90".data "20".data (some 100)
          DEFAULT_NAME_PATTERN = some res ∧
        res.jobs.map ClipJob.durationSeconds = [10] ∧ res.notices ≠ []) ∧
      validateSingleCut (some "v.mp4".data) "100".data "20".data (some 100)
        DEFAULT_NAME_PATTERN = none ∧
      validateSingleCut (some "v.mp4".data) "-1".data "20".data (some 100)
        DEFAULT_NAME_PATTERN = none := by
  have main : ∀ (file startInput durationInput pattern : Str) (T s d : ℚ),
      jsTrim startInput ≠ [] → parseTimeToSeconds (jsTrim startInput) = some s →
      jsTrim durationInput ≠ [] → parseTimeToSeconds (jsTrim durationInput) = some d →
      (s < 0 →
        validateSingleCut (some file) startInput durationInput (some T) pattern = none) ∧
      (0 ≤ s → T ≤ s →
        validateSingleCut (some file) startInput durationInput (some T) pattern = none) ∧
      (0 ≤ s → s < T → T - s ≤ DURATION_EPSILON →
        validateSingleCut (some file) startInput durationInput (some T) pattern = none) ∧
      (0 ≤ s → s < T → DURATION_EPSILON < T - s → 0 < d →
        validateSingleCut (some file) startInput durationInput (some T) pattern =
          some ⟨[⟨buildOutputName pattern file 0 s
              (if d > T - s + DURATION_EPSILON then T - s else d), s,
              (if d > T - s + DURATION_EPSILON then T - s else d), "Recorte simple".data⟩],
            if d > T - s + DURATION_EPSILON then
              ["Duration ajustada automáticamente a ".data ++
                formatSecondsToTime (T - s) true ++ ".".data]
            else []⟩) := by
    intro file startInput durationInput pattern T s d hs0 hsp hd0 hdp
    rw [validateSingleCut_eq file startInput durationInput pattern (some T) s d hs0 hsp hd0 hdp]
    refine ⟨fun h => by rw [if_pos h], ?_, ?_, ?_⟩
    · intro h0 hTs
      rw [if_neg (not_lt.2 h0)]
      simp only [singleCutWithDuration]
      by_cases hd : d ≤ 0
      · rw [if_pos hd]
      · rw [if_neg hd, if_pos (show s ≥ T from hTs)]
    · intro h0 hsT hrem
      rw [if_neg (not_lt.2 h0)]
      simp only [singleCutWithDuration]
      by_cases hd : d ≤ 0
      · rw [if_pos hd]
      · rw [if_neg hd, if_neg (show ¬ s ≥ T from not_le.2 hsT), if_pos hrem]
    · intro h0 hsT hrem hd
      rw [if_neg (not_lt.2 h0)]
      simp only [singleCutWithDuration]
      rw [if_neg (not_le.2 hd), if_neg (show ¬ s ≥ T from not_le.2 hsT), if_neg (not_le.2 hrem)]
      by_cases hclamp : d > T - s + DURATION_EPSILON
      · rw [if_pos hclamp, if_pos hclamp, if_pos hclamp]
        rfl
      · rw [if_neg hclamp, if_neg hclamp, if_neg hclamp]
  refine ⟨main, ?_, ?_, ?_⟩
  · have p90 : parseTimeToSeconds (jsTrim "90".data) = some (90 : ℚ) := by
      rw [show jsTrim "90".data = "90".data from by decide,
        parseTimeToSeconds_digits (by decide) (by decide),
        show parseNat "90".data = 90 from by decide]
      norm_num
    have p20 : parseTimeToSeconds (jsTrim "20".data) = some (20 : ℚ) := by
      rw [show jsTrim "20".data = "20".data from by decide,
        parseTimeToSeconds_digits (by decide) (by decide),
        show parseNat "20".data = 20 from by decide]
      norm_num
    have h := (main "v.mp4".data "90".data "20".data DEFAULT_NAME_PATTERN 100 90 20
      (by decide) p90 (by decide) p20).2.2.2 (by norm_num) (by norm_num)
      (by norm_num [DURATION_EPSILON]) (by norm_num)
    rw [if_pos (by norm_num [DURATION_EPSILON]), if_pos (by norm_num [DURATION_EPSILON])] at h
    refine ⟨_, h, ?_, by simp⟩
    simp only [List.map_cons, List.map_nil]
    norm_num
  · have p100 : parseTimeToSeconds (jsTrim "100".data) = some (100 : ℚ) := by
      rw [show jsTrim "100".data = "100".data from by decide,
        parseTimeToSeconds_digits (by decide) (by decide),
        show parseNat "100".data = 100 from by decide]
      norm_num
    have p20 : parseTimeToSeconds (jsTrim "20".data) = some (20 : ℚ) := by
      rw [show jsTrim "20".data = "20".data from by decide,
        parseTimeToSeconds_digits (by decide) (by decide),
        show parseNat "20".data = 20 from by decide]
      norm_num
    exact (main "v.mp4".data "100".data "20".data DEFAULT_NAME_PATTERN 100 100 20
      (by decide) p100 (by decide) p20).2.1 (by norm_num) (by norm_num)
  · unfold validateSingleCut
    simp only [show (jsTrim "-1".data).isEmpty = false from by decide, Bool.false_eq_true,
      if_false, show parseTimeToSeconds (jsTrim "-1".data) = none from by decide]

/-- Witness for C5: the general characterization applied at `T = 10`,
start `"2"`, duration `"30"` (clamped branch). -/
theorem validateSingleCutKnownTotal_witness :
    validateSingleCut (some "v.mp4".data) "2".data "30".data (some 10) DEFAULT_NAME_PATTERN =
      some ⟨[⟨buildOutputName DEFAULT_NAME_PATTERN "v.mp4".data 0 2
          (if (30 : ℚ) > 10 - 2 + DURATION_EPSILON then 10 - 2 else 30), 2,
          (if (30 : ℚ) > 10 - 2 + DURATION_EPSILON then 10 - 2 else 30),
          "Recorte simple".data⟩],
        if (30 : ℚ) > 10 - 2 + DURATION_EPSILON then
          ["Duration ajustada automáticamente a ".data ++
            formatSecondsToTime ((10 : ℚ) - 2) true ++ ".".data]
        else []⟩ := by
  have p2 : parseTimeToSeconds (jsTrim "2".data) = some (2 : ℚ) := by
    rw [show jsTrim "2".data = "2".data from by decide,
      parseTimeToSeconds_digits (by decide) (by decide),
      show parseNat "2".data = 2 from by decide]
    norm_num
  have p30 : parseTimeToSeconds (jsTrim "30".data) = some (30 : ℚ) := by
    rw [show jsTrim "30".data = "30".data from by decide,
      parseTimeToSeconds_digits (by decide) (by decide),
      show parseNat "30".data = 30 from by decide]
    norm_num
  exact (validateSingleCutKnownTotal.1 "v.mp4".data "2".data "30".data DEFAULT_NAME_PATTERN
    10 2 30 (by decide) p2 (by decide) p30).2.2.2 (by norm_num) (by norm_num)
    (by norm_num [DURATION_EPSILON]) (by norm_num)

/-! ### Helper lemmas: auto-split validation (C4, C1) -/

/-- Index characterization of the auto-split loop: the `i`-th generated job
starts at `cursor + i·L` and lasts `min L (vd - (cursor + i·L))`. -/
theorem autoSplitGo_getElem (vd L : ℚ) (pattern file : Str) :
    ∀ (fuel : ℕ) (cursor : ℚ) (idx i : ℕ),
      i < (autoSplitGo vd L pattern file fuel cursor idx).length →
      (autoSplitGo vd L pattern file fuel cursor idx).get? i =
        some ⟨buildOutputName pattern file (idx + i) (cursor + i * L)
            (min L (vd - (cursor + i * L))), cursor + i * L,
          min L (vd - (cursor + i * L)), "Auto clip ".data ++ natDigits (idx + i + 1)⟩ := by
  intro fuel
  induction fuel with
  | zero => intro cursor idx i h; simp [autoSplitGo] at h
  | succ f ih =>
    intro cursor idx i h
    by_cases hc : cursor < vd - DURATION_EPSILON
    · simp only [autoSplitGo, if_pos hc] at h ⊢
      cases i with
      | zero =>
        rw [List.get?_cons_zero]
        simp only [Nat.cast_zero, zero_mul, add_zero, Nat.add_zero]
      | succ i =>
        rw [List.get?_cons_succ]
        rw [List.length_cons, Nat.succ_lt_succ_iff] at h
        rw [ih (cursor + L) (idx + 1) i h]
        have e1 : idx + 1 + i = idx + (i + 1) := by omega
        have e2 : cursor + L + (i : ℚ) * L = cursor + ((i + 1 : ℕ) : ℚ) * L := by
          push_cast
          ring
        rw [e1, e2]
    · simp only [autoSplitGo, if_neg hc] at h
      simp at h

/-- With sufficient fuel, the auto-split loop generates a job for index `i`
exactly when the cursor `cursor + i·L` is still before `vd - ε`. -/
theorem autoSplitGo_length_iff (vd L : ℚ) (pattern file : Str) (hL : 0 < L) :
    ∀ (fuel : ℕ) (cursor : ℚ) (idx : ℕ), vd - DURATION_EPSILON - cursor ≤ fuel * L →
      ∀ i : ℕ, i < (autoSplitGo vd L pattern file fuel cursor idx).length ↔
        cursor + i * L < vd - DURATION_EPSILON := by
  intro fuel
  induction fuel with
  | zero =>
    intro cursor idx hfuel i
    simp only [autoSplitGo, List.length_nil]
    constructor
    · omega
    · intro hcon
      have hiL : (0 : ℚ) ≤ (i : ℚ) * L := by positivity
      push_cast at hfuel
      linarith
  | succ f ih =>
    intro cursor idx hfuel i
    by_cases hc : cursor < vd - DURATION_EPSILON
    · simp only [autoSplitGo, if_pos hc]
      cases i with
      | zero =>
        simp only [List.length_cons, Nat.cast_zero, zero_mul, add_zero]
        exact ⟨fun _ => hc, fun _ => Nat.succ_pos _⟩
      | succ i =>
        rw [List.length_cons, Nat.succ_lt_succ_iff]
        have hfuel2 : vd - DURATION_EPSILON - (cursor + L) ≤ f * L := by
          push_cast at hfuel ⊢
          linarith
        rw [ih (cursor + L) (idx + 1) hfuel2 i]
        constructor <;> intro hx <;> push_cast at hx ⊢ <;> linarith
    · simp only [autoSplitGo, if_neg hc, List.length_nil]
      constructor
      · omega
      · intro hcon
        have hiL : (0 : ℚ) ≤ (i : ℚ) * L := by positivity
        linarith

theorem autoSplitFuel_sufficient (T s L : ℚ) (hL : 0 < L) (hsT : s < T) :
    T - DURATION_EPSILON - s ≤ (autoSplitFuel T s L : ℚ) * L := by
  unfold autoSplitFuel
  have h1 : (0 : ℚ) < T - s := by linarith
  have h2 : (T - s) / L ≤ ((⌈(T - s) / L⌉ : ℤ) : ℚ) := Int.le_ceil _
  have h3 : (0 : ℤ) ≤ ⌈(T - s) / L⌉ := Int.ceil_nonneg (by positivity)
  have h4 : T - s ≤ ((⌈(T - s) / L⌉ : ℤ) : ℚ) * L := (div_le_iff₀ hL).1 h2
  have h5 : ((⌈(T - s) / L⌉.toNat + 1 : ℕ) : ℚ) = ((⌈(T - s) / L⌉ : ℤ) : ℚ) + 1 := by
    have h0 := Int.toNat_of_nonneg h3
    exact_mod_cast congrArg (fun z : ℤ => (z : ℚ) + 1) h0
  rw [h5]
  have h6 : (((⌈(T - s) / L⌉ : ℤ) : ℚ) + 1) * L = ((⌈(T - s) / L⌉ : ℤ) : ℚ) * L + L := by ring
  rw [h6]
  linarith [eps_pos]

/-- Every job generated by the auto-split loop satisfies the Job invariant. -/
theorem autoSplitGo_inv (vd L : ℚ) (pattern file : Str) (hL : 0 < L) :
    ∀ (fuel : ℕ) (cursor : ℚ) (idx : ℕ), 0 ≤ cursor →
      ∀ j ∈ autoSplitGo vd L pattern file fuel cursor idx,
        0 ≤ j.startSeconds ∧ 0 < j.durationSeconds ∧ j.startSeconds < vd ∧
          j.startSeconds + j.durationSeconds ≤ vd + DURATION_EPSILON := by
  intro fuel
  induction fuel with
  | zero => intro cursor idx h0 j hj; simp [autoSplitGo] at hj
  | succ f ih =>
    intro cursor idx h0 j hj
    by_cases hc : cursor < vd - DURATION_EPSILON
    · simp only [autoSplitGo, if_pos hc] at hj
      rcases List.mem_cons.1 hj with rfl | hj
      · refine ⟨h0, lt_min hL (by linarith [eps_pos]), by linarith [eps_pos], ?_⟩
        have hmr := min_le_right L (vd - cursor)
        show cursor + min L (vd - cursor) ≤ vd + DURATION_EPSILON
        linarith [eps_pos]
      · exact ih (cursor + L) (idx + 1) (by linarith) j hj
    · simp only [autoSplitGo, if_neg hc] at hj
      simp at hj

/-- C4: auto-split with known total duration `T`, valid start `0 ≤ s < T`
and clip length `L > 0` advances a cursor from `s` in steps of `L`; job `i`
exists exactly while `s + i·L < T - ε` (i.e. the loop stops when the
remaining span is at most ε = 0.001) and has start `s + i·L` and duration
`min L (T - (s + i·L))`; in particular `T = 100`, `s = 0`, `L = 34` yields
exactly 3 jobs with starts `[0, 34, 68]` and durations `[34, 34, 32]`. -/
theorem validateAutoSplitCursor :
    (∀ (file autoStartInput clipLengthInput pattern : Str) (T s L : ℚ),
      (if (jsTrim autoStartInput).isEmpty then some 0
        else parseTimeToSeconds autoStartInput) = some s →
      parseTimeToSeconds clipLengthInput = some L →
      0 ≤ s → s < T → 0 < L →
      (T - DURATION_EPSILON ≤ s →
        validateAutoSplit (some file) autoStartInput clipLengthInput (some T) pattern = none) ∧
      (s < T - DURATION_EPSILON →
        ∃ res, validateAutoSplit (some file) autoStartInput clipLengthInput (some T) pattern =
            some res ∧
          (∀ i : ℕ, i < res.jobs.length ↔ s + i * L < T - DURATION_EPSILON) ∧
          (∀ i : ℕ, i < res.jobs.length →
            res.jobs.get? i = some ⟨buildOutputName pattern file i (s + i * L)
                (min L (T - (s + i * L))), s + i * L, min L (T - (s + i * L)),
              "Auto clip ".data ++ natDigits (i + 1)⟩) ∧
          res.notices = [])) ∧
      ∃ res, validateAutoSplit (some "v.mp4".data) "0".data "34".data (some 100)
          DEFAULT_NAME_PATTERN = some res ∧
        res.jobs.map ClipJob.startSeconds = [0, 34, 68] ∧
        res.jobs.map ClipJob.durationSeconds = [34, 34, 32] := by
  have main : ∀ (file autoStartInput clipLengthInput pattern : Str) (T s L : ℚ),
      (if (jsTrim autoStartInput).isEmpty then some 0
        else parseTimeToSeconds autoStartInput) = some s →
      parseTimeToSeconds clipLengthInput = some L →
      0 ≤ s → s < T → 0 < L →
      (T - DURATION_EPSILON ≤ s →
        validateAutoSplit (some file) autoStartInput clipLengthInput (some T) pattern = none) ∧
      (s < T - DURATION_EPSILON →
        ∃ res, validateAutoSplit (some file) autoStartInput clipLengthInput (some T) pattern =
            some res ∧
          (∀ i : ℕ, i < res.jobs.length ↔ s + i * L < T - DURATION_EPSILON) ∧
          (∀ i : ℕ, i < res.jobs.length →
            res.jobs.get? i = some ⟨buildOutputName pattern file i (s + i * L)
                (min L (T - (s + i * L))), s + i * L, min L (T - (s + i * L)),
              "Auto clip ".data ++ natDigits (i + 1)⟩) ∧
          res.notices = []) := by
    intro file autoStartInput clipLengthInput pattern T s L hps hpL h0 hsT hL
    have hfuel := autoSplitFuel_sufficient T s L hL hsT
    have hiff := fun i => autoSplitGo_length_iff T L pattern file hL
      (autoSplitFuel T s L) s 0 hfuel i
    have heval : validateAutoSplit (some file) autoStartInput clipLengthInput (some T) pattern =
        (if (autoSplitGo T L pattern file (autoSplitFuel T s L) s 0).isEmpty = true then none
         else some ⟨autoSplitGo T L pattern file (autoSplitFuel T s L) s 0, []⟩) := by
      simp only [validateAutoSplit, hps, hpL]
      rw [if_neg (not_lt.2 h0), if_neg (not_le.2 hL), if_neg (show ¬ s ≥ T from not_le.2 hsT)]
    constructor
    · intro hstop
      have hlen0 : (autoSplitGo T L pattern file (autoSplitFuel T s L) s 0).length = 0 := by
        by_contra hne
        have h1 : 0 < (autoSplitGo T L pattern file (autoSplitFuel T s L) s 0).length :=
          Nat.pos_of_ne_zero hne
        have h2 := (hiff 0).1 h1
        push_cast at h2
        linarith
      rw [List.length_eq_zero] at hlen0
      rw [heval, hlen0]
      simp
    · intro hgo
      have hne : (autoSplitGo T L pattern file (autoSplitFuel T s L) s 0).isEmpty = false := by
        apply isEmpty_false_of_ne_nil
        intro hcon
        have h1 := (hiff 0).2 (by push_cast; linarith)
        rw [hcon] at h1
        simp at h1
      rw [heval, if_neg (by simp [hne])]
      refine ⟨_, rfl, hiff, ?_, rfl⟩
      intro i h
      rw [autoSplitGo_getElem T L pattern file (autoSplitFuel T s L) s 0 i h]
      simp only [Nat.zero_add, zero_add]
  refine ⟨main, ?_⟩
  have p0 : (if (jsTrim "0".data).isEmpty then some 0
      else parseTimeToSeconds "0".data) = some (0 : ℚ) := by
    rw [if_neg (by decide), parseTimeToSeconds_digits (by decide) (by decide),
      show parseNat "0".data = 0 from by decide]
    norm_num
  have p34 : parseTimeToSeconds "34".data = some (34 : ℚ) := by
    rw [parseTimeToSeconds_digits (by decide) (by decide),
      show parseNat "34".data = 34 from by decide]
    norm_num
  obtain ⟨res, hres, hiff, hget, -⟩ := (main "v.mp4".data "0".data "34".data
    DEFAULT_NAME_PATTERN 100 0 34 p0 p34 le_rfl (by norm_num) (by norm_num)).2
    (by norm_num [DURATION_EPSILON])
  have hlen : res.jobs.length = 3 := by
    have h2 : 2 < res.jobs.length := (hiff 2).2 (by norm_num [DURATION_EPSILON])
    have h3 : ¬ 3 < res.jobs.length := by
      intro hc
      have hx := (hiff 3).1 hc
      norm_num [DURATION_EPSILON] at hx
    omega
  obtain ⟨j0, j1, j2, hjs⟩ := List.length_eq_three.1 hlen
  rw [hjs] at hget
  have g0 := hget 0 (by simp)
  have g1 := hget 1 (by simp)
  have g2 := hget 2 (by simp)
  rw [List.get?_cons_zero, Option.some_inj] at g0
  rw [List.get?_cons_succ, List.get?_cons_zero, Option.some_inj] at g1
  rw [List.get?_cons_succ, List.get?_cons_succ, List.get?_cons_zero, Option.some_inj] at g2
  refine ⟨res, hres, ?_, ?_⟩
  · rw [hjs]
    simp only [List.map_cons, List.map_nil, g0, g1, g2]
    norm_num
  · rw [hjs]
    simp only [List.map_cons, List.map_nil, g0, g1, g2]
    norm_num [min_def]

/-- Witness for C4: the failing branch of the characterization at `T = 10`
with a start inside the final ε window (`9.9995 ≥ 10 - 0.001`). -/
theorem validateAutoSplitCursor_witness :
    validateAutoSplit (some "a.mp4".data) "9.9995".data "4".data (some 10)
      DEFAULT_NAME_PATTERN = none := by
  have hp : (if (jsTrim "9.9995".data).isEmpty then some 0
      else parseTimeToSeconds "9.9995".data) = some (19999 / 2000 : ℚ) := by
    rw [if_neg (by decide)]
    rw [parseTimeToSeconds_of_seconds
      (show jsTrim "9.9995".data = "9.9995".data from by decide) (by decide)]
    rw [show ("9.9995".data : Str) = "9".data ++ '.' :: "9995".data from by decide]
    rw [parseDecimal_append_frac _ _ _ (by decide) (by decide)]
    rw [show parseNat "9".data = 9 from by decide, show parseNat "9995".data = 9995 from by decide,
      show ("9995".data : Str).length = 4 from by decide]
    norm_num
  have p4 : parseTimeToSeconds "4".data = some (4 : ℚ) := by
    rw [parseTimeToSeconds_digits (by decide) (by decide),
      show parseNat "4".data = 4 from by decide]
    norm_num
  exact (validateAutoSplitCursor.1 "a.mp4".data "9.9995".data "4".data DEFAULT_NAME_PATTERN
    10 (19999 / 2000) 4 hp p4 (by norm_num) (by norm_num) (by norm_num)).1
    (by norm_num [DURATION_EPSILON])

/-! ### Helper lemmas: multi-cut validation (C1, C2, C9) -/

/-- The Job data-model invariant of the spec: non-negative start, positive
duration, and — when the total media duration is known — start before the
end with at most ε overhang. -/
def JobInvariant (vd : Option ℚ) (j : ClipJob) : Prop :=
  0 ≤ j.startSeconds ∧ 0 < j.durationSeconds ∧
    ∀ T, vd = some T →
      j.startSeconds < T ∧ j.startSeconds + j.durationSeconds ≤ T + DURATION_EPSILON

theorem multiCutRowStep_accept_inv {vd : Option ℚ} {pattern file : Str} {cut : MultiCutInput}
    {index : ℕ} {prev : ℚ} {job : ClipJob} {newPrev : ℚ} {ns : List Str}
    (h : multiCutRowStep vd pattern file cut index prev = .accept job newPrev ns) :
    JobInvariant vd job := by
  simp only [multiCutRowStep] at h
  split at h
  · exact RowStep.noConfusion h
  split at h
  · exact RowStep.noConfusion h
  rename_i s hs
  split at h
  · exact RowStep.noConfusion h
  rename_i e ns2 hpair
  split at h
  · exact RowStep.noConfusion h
  rename_i hsneg
  push_neg at hsneg
  split at h
  · rename_i T
    by_cases hsT : s ≥ T
    · simp only [if_pos hsT] at h
      split at h
      · exact RowStep.noConfusion h
      · exact RowStep.noConfusion h
    · simp only [if_neg hsT] at h
      push_neg at hsT
      by_cases hclamp : e > T + DURATION_EPSILON
      · simp only [if_pos hclamp] at h
        by_cases heff : T ≤ s + DURATION_EPSILON
        · simp only [if_pos heff] at h
          split at h
          · exact RowStep.noConfusion h
          · exact RowStep.noConfusion h
        · simp only [if_neg heff] at h
          push_neg at heff
          obtain ⟨rfl, -, -⟩ := RowStep.accept.inj h
          refine ⟨hsneg, ?_, ?_⟩
          · show (0 : ℚ) < T - s
            linarith [eps_pos]
          · intro T2 hT2
            rw [Option.some_inj] at hT2
            subst hT2
            refine ⟨hsT, ?_⟩
            show s + (T - s) ≤ T + DURATION_EPSILON
            linarith [eps_pos]
      · simp only [if_neg hclamp] at h
        push_neg at hclamp
        by_cases heff : e ≤ s + DURATION_EPSILON
        · simp only [if_pos heff] at h
          split at h
          · exact RowStep.noConfusion h
          · exact RowStep.noConfusion h
        · simp only [if_neg heff] at h
          push_neg at heff
          obtain ⟨rfl, -, -⟩ := RowStep.accept.inj h
          refine ⟨hsneg, ?_, ?_⟩
          · show (0 : ℚ) < e - s
            linarith [eps_pos]
          · intro T2 hT2
            rw [Option.some_inj] at hT2
            subst hT2
            refine ⟨hsT, ?_⟩
            show s + (e - s) ≤ T + DURATION_EPSILON
            linarith [hclamp]
  · by_cases heff : e ≤ s + DURATION_EPSILON
    · simp only [if_pos heff] at h
      split at h
      · exact RowStep.noConfusion h
      · exact RowStep.noConfusion h
    · simp only [if_neg heff] at h
      push_neg at heff
      obtain ⟨rfl, -, -⟩ := RowStep.accept.inj h
      refine ⟨hsneg, ?_, fun T2 hT2 => Option.noConfusion hT2⟩
      show (0 : ℚ) < e - s
      linarith [eps_pos]

theorem validateMultiCutGo_inv (vd : Option ℚ) (pattern file : Str) :
    ∀ (rows : List MultiCutInput) (idx : ℕ) (prev : ℚ) (jobs : List ClipJob) (ns : List Str)
      (res : JobValidation),
      validateMultiCutGo vd pattern file rows idx prev jobs ns = some res →
      (∀ j ∈ jobs, JobInvariant vd j) → ∀ j ∈ res.jobs, JobInvariant vd j := by
  intro rows
  induction rows with
  | nil =>
    intro idx prev jobs ns res h hacc
    simp only [validateMultiCutGo] at h
    split at h
    · exact absurd h (by simp)
    · rw [Option.some_inj] at h
      subst h
      exact hacc
  | cons cut rest ih =>
    intro idx prev jobs ns res h hacc
    simp only [validateMultiCutGo] at h
    cases hstep : multiCutRowStep vd pattern file cut idx prev with
    | skip ns1 =>
      rw [hstep] at h
      exact ih (idx + 1) prev jobs (ns ++ ns1) res h hacc
    | failRow =>
      rw [hstep] at h
      exact absurd h (by simp)
    | accept job newPrev ns1 =>
      rw [hstep] at h
      refine ih (idx + 1) newPrev (jobs ++ [job]) (ns ++ ns1) res h ?_
      intro j hj
      rcases List.mem_append.1 hj with h1 | h1
      · exact hacc j h1
      · rw [List.mem_singleton] at h1
        subst h1
        exact multiCutRowStep_accept_inv hstep

theorem validateMultiCut_inv {selectedFile : Option Str} {multiCuts : List MultiCutInput}
    {vd : Option ℚ} {pattern : Str} {res : JobValidation}
    (h : validateMultiCut selectedFile multiCuts vd pattern = some res) :
    ∀ j ∈ res.jobs, JobInvariant vd j := by
  unfold validateMultiCut at h
  split at h
  · exact absurd h (by simp)
  split at h
  · exact absurd h (by simp)
  exact validateMultiCutGo_inv vd pattern _ multiCuts 0 0 [] [] res h (by simp)

theorem validateAutoSplit_inv {selectedFile : Option Str} {autoStartInput clipLengthInput : Str}
    {vd : Option ℚ} {pattern : Str} {res : JobValidation}
    (h : validateAutoSplit selectedFile autoStartInput clipLengthInput vd pattern = some res) :
    ∀ j ∈ res.jobs, JobInvariant vd j := by
  cases selectedFile with
  | none => exact absurd h (by simp [validateAutoSplit])
  | some file =>
  cases vd with
  | none => exact absurd h (by simp [validateAutoSplit])
  | some T =>
  simp only [validateAutoSplit] at h
  split at h
  · rename_i s L hseq hLeq
    split at h
    · exact absurd h (by simp)
    rename_i hs
    push_neg at hs
    split at h
    · exact absurd h (by simp)
    rename_i hL
    push_neg at hL
    split at h
    · exact absurd h (by simp)
    split at h
    · exact absurd h (by simp)
    rw [Option.some_inj] at h
    subst h
    intro j hj
    obtain ⟨h1, h2, h3, h4⟩ := autoSplitGo_inv T L pattern file hL _ s 0 hs j hj
    refine ⟨h1, h2, ?_⟩
    intro T2 hT2
    rw [Option.some_inj] at hT2
    subst hT2
    exact ⟨h3, h4⟩
  · exact absurd h (by simp)

/-- C1: every job produced by any of the three validation entry points
(`validateSingleCut`, `validateAutoSplit`, `validateMultiCut`) satisfies the
Job data-model invariant: `startSeconds ≥ 0`, `durationSeconds > 0`, and,
when the total media duration `T` is known, `startSeconds < T` and
`startSeconds + durationSeconds ≤ T + 0.001`. -/
theorem validationJobInvariant :
    (∀ (selectedFile : Option Str) (startInput durationInput : Str) (vd : Option ℚ)
        (pattern : Str) (res : JobValidation),
      validateSingleCut selectedFile startInput durationInput vd pattern = some res →
      ∀ j ∈ res.jobs, JobInvariant vd j) ∧
      (∀ (selectedFile : Option Str) (autoStartInput clipLengthInput : Str) (vd : Option ℚ)
          (pattern : Str) (res : JobValidation),
        validateAutoSplit selectedFile autoStartInput clipLengthInput vd pattern = some res →
        ∀ j ∈ res.jobs, JobInvariant vd j) ∧
      ∀ (selectedFile : Option Str) (multiCuts : List MultiCutInput) (vd : Option ℚ)
          (pattern : Str) (res : JobValidation),
        validateMultiCut selectedFile multiCuts vd pattern = some res →
        ∀ j ∈ res.jobs, JobInvariant vd j :=
  ⟨fun _ _ _ _ _ _ h => validateSingleCut_inv h,
    fun _ _ _ _ _ _ h => validateAutoSplit_inv h,
    fun _ _ _ _ _ h => validateMultiCut_inv h⟩

/-- Witness for the C1 invariant theorem: a concrete single cut (start `"1"`,
duration `"5"`, total duration 10) validates, and the theorem yields the
invariant for its jobs. -/
theorem validationJobInvariant_witness :
    ∃ res : JobValidation,
      validateSingleCut (some "v.mp4".data) "1".data "5".data (some 10) DEFAULT_NAME_PATTERN =
        some res ∧ ∀ j ∈ res.jobs, JobInvariant (some 10) j := by
  have p1 : parseTimeToSeconds (jsTrim "1".data) = some (1 : ℚ) := by
    rw [show jsTrim "1".data = "1".data from by decide,
      parseTimeToSeconds_digits (by decide) (by decide),
      show parseNat "1".data = 1 from by decide]
    norm_num
  have p5 : parseTimeToSeconds (jsTrim "5".data) = some (5 : ℚ) := by
    rw [show jsTrim "5".data = "5".data from by decide,
      parseTimeToSeconds_digits (by decide) (by decide),
      show parseNat "5".data = 5 from by decide]
    norm_num
  have heval : validateSingleCut (some "v.mp4".data) "1".data "5".data (some 10)
      DEFAULT_NAME_PATTERN =
      some ⟨[⟨buildOutputName DEFAULT_NAME_PATTERN "v.mp4".data 0 1 5, 1, 5,
        "Recorte simple".data⟩], []⟩ := by
    rw [validateSingleCut_eq "v.mp4".data "1".data "5".data DEFAULT_NAME_PATTERN (some 10) 1 5
      (by decide) p1 (by decide) p5]
    norm_num [singleCutWithDuration, DURATION_EPSILON]
  exact ⟨_, heval, validationJobInvariant.1 (some "v.mp4".data) "1".data "5".data (some 10)
    DEFAULT_NAME_PATTERN _ heval⟩

/-! ### Per-row characterization of multi-cut validation (explicit rows) -/

/-- The end used for a row after the clamp against the known video duration
(`effectiveEndSeconds`, line 1484). -/
def effectiveEndFor (vd : Option ℚ) (e : ℚ) : ℚ :=
  match vd with
  | some T => if e > T + DURATION_EPSILON then T else e
  | none => e

/-- A multi-cut row with explicit (non-blank) start and end fields passes all
of its per-row checks: both fields parse, the start is non-negative and (when
the duration is known) before the end of the video, and the clamped end
exceeds the start by more than `DURATION_EPSILON`.  This predicate reads only
the row itself, never a neighbouring row. -/
def explicitRowAccepts (vd : Option ℚ) (cut : MultiCutInput) : Bool :=
  !(jsTrim cut.startInput).isEmpty && (!(jsTrim cut.endInput).isEmpty &&
    match parseTimeToSeconds (jsTrim cut.startInput),
        parseTimeToSeconds (jsTrim cut.endInput) with
    | some s, some e =>
      decide (0 ≤ s) && ((match vd with | some T => decide (s < T) | none => true) &&
        decide (s + DURATION_EPSILON < effectiveEndFor vd e))
    | _, _ => false)

/-- The job an explicit row contributes, computed from that row alone. -/
def explicitRowJob (vd : Option ℚ) (pattern file : Str) (cut : MultiCutInput)
    (index : ℕ) : Option ClipJob :=
  match parseTimeToSeconds (jsTrim cut.startInput),
      parseTimeToSeconds (jsTrim cut.endInput) with
  | some s, some e =>
    some ⟨buildOutputName pattern file index s (effectiveEndFor vd e - s), s,
      effectiveEndFor vd e - s, "Corte ".data ++ natDigits (index + 1)⟩
  | _, _ => none

/-- The job list contributed by a list of explicit rows, row by row in list
order. -/
def explicitJobs (vd : Option ℚ) (pattern file : Str) :
    List MultiCutInput → ℕ → List ClipJob
  | [], _ => []
  | cut :: rest, index =>
    (explicitRowJob vd pattern file cut index).toList ++
      explicitJobs vd pattern file rest (index + 1)

/-- The notices an accepted explicit row emits (only the end-clamp notice can
fire). -/
def explicitRowNotices (vd : Option ℚ) (e : ℚ) (index : ℕ) : List Str :=
  match vd with
  | some T =>
    if e > T + DURATION_EPSILON then
      ["Corte ".data ++ natDigits (index + 1) ++ ": fin ajustado a ".data ++
        formatSecondsToTime T true ++ " para no exceder el video.".data]
    else []
  | none => []

theorem explicitRowAccepts_elim {vd : Option ℚ} {cut : MultiCutInput}
    (h : explicitRowAccepts vd cut = true) :
    ∃ s e, (jsTrim cut.startInput).isEmpty = false ∧
      (jsTrim cut.endInput).isEmpty = false ∧
      parseTimeToSeconds (jsTrim cut.startInput) = some s ∧
      parseTimeToSeconds (jsTrim cut.endInput) = some e ∧
      0 ≤ s ∧ (∀ T, vd = some T → s < T) ∧
      s + DURATION_EPSILON < effectiveEndFor vd e := by
  simp only [explicitRowAccepts, Bool.and_eq_true, Bool.not_eq_true'] at h
  obtain ⟨hs0, he0, hm⟩ := h
  rcases hsp : parseTimeToSeconds (jsTrim cut.startInput) with _ | s <;>
    rcases hep : parseTimeToSeconds (jsTrim cut.endInput) with _ | e <;>
    rw [hsp, hep] at hm
  · simp at hm
  · simp at hm
  · simp at hm
  · simp only [Bool.and_eq_true, decide_eq_true_eq] at hm
    obtain ⟨h0, hvd, heff⟩ := hm
    refine ⟨s, e, hs0, he0, rfl, rfl, h0, ?_, heff⟩
    intro T hT
    subst hT
    simpa using hvd

theorem multiCutRowStep_explicit (vd : Option ℚ) (pattern file : Str) (cut : MultiCutInput)
    (idx : ℕ) (prev : ℚ) (s e : ℚ)
    (hs0 : (jsTrim cut.startInput).isEmpty = false)
    (he0 : (jsTrim cut.endInput).isEmpty = false)
    (hsp : parseTimeToSeconds (jsTrim cut.startInput) = some s)
    (hep : parseTimeToSeconds (jsTrim cut.endInput) = some e)
    (hs : 0 ≤ s) (hlt : ∀ T, vd = some T → s < T)
    (heff : s + DURATION_EPSILON < effectiveEndFor vd e) :
    multiCutRowStep vd pattern file cut idx prev =
      .accept ⟨buildOutputName pattern file idx s (effectiveEndFor vd e - s), s,
          effectiveEndFor vd e - s, "Corte ".data ++ natDigits (idx + 1)⟩
        (effectiveEndFor vd e) (explicitRowNotices vd e idx) := by
  cases vd with
  | none =>
    have heff' : ¬(e ≤ s + DURATION_EPSILON) := by
      simp only [effectiveEndFor] at heff
      exact not_le.2 heff
    simp only [multiCutRowStep, effectiveEndFor, explicitRowNotices, hs0, he0, hsp, hep,
      Bool.false_and, Bool.false_eq_true, if_false, Option.map_some', List.nil_append,
      if_neg (not_lt.2 hs), if_neg heff']
  | some T =>
    have hT : ¬(s ≥ T) := not_le.2 (hlt T rfl)
    have heff' : ¬((if e > T + DURATION_EPSILON then T else e) ≤ s + DURATION_EPSILON) := by
      simp only [effectiveEndFor] at heff
      exact not_le.2 heff
    simp only [multiCutRowStep, effectiveEndFor, explicitRowNotices, hs0, he0, hsp, hep,
      Bool.false_and, Bool.false_eq_true, if_false, Option.map_some', List.nil_append,
      if_neg (not_lt.2 hs), if_neg hT, if_neg heff']

theorem explicitJobs_length (vd : Option ℚ) (pattern file : Str) :
    ∀ (rows : List MultiCutInput) (idx : ℕ),
      (∀ cut ∈ rows, explicitRowAccepts vd cut = true) →
      (explicitJobs vd pattern file rows idx).length = rows.length := by
  intro rows
  induction rows with
  | nil => intro idx _; rfl
  | cons cut rest ih =>
    intro idx hall
    obtain ⟨s, e, -, -, hsp, hep, -, -, -⟩ :=
      explicitRowAccepts_elim (hall cut (List.mem_cons_self _ _))
    simp [explicitJobs, explicitRowJob, hsp, hep,
      ih (idx + 1) fun c hc => hall c (List.mem_cons_of_mem _ hc)]

theorem explicitJobs_get (vd : Option ℚ) (pattern file : Str) :
    ∀ (rows : List MultiCutInput) (idx : ℕ),
      (∀ cut ∈ rows, explicitRowAccepts vd cut = true) →
      ∀ i, (explicitJobs vd pattern file rows idx).get? i =
        (rows.get? i).bind fun cut => explicitRowJob vd pattern file cut (idx + i) := by
  intro rows
  induction rows with
  | nil => intro idx _ i; simp [explicitJobs]
  | cons cut rest ih =>
    intro idx hall i
    obtain ⟨s, e, -, -, hsp, hep, -, -, -⟩ :=
      explicitRowAccepts_elim (hall cut (List.mem_cons_self _ _))
    have hjob : explicitRowJob vd pattern file cut idx =
        some ⟨buildOutputName pattern file idx s (effectiveEndFor vd e - s), s,
          effectiveEndFor vd e - s, "Corte ".data ++ natDigits (idx + 1)⟩ := by
      simp only [explicitRowJob, hsp, hep]
    cases i with
    | zero => simp [explicitJobs, hjob]
    | succ i =>
      have hrec := ih (idx + 1) (fun c hc => hall c (List.mem_cons_of_mem _ hc)) i
      simp only [explicitJobs, hjob, Option.toList_some, List.singleton_append,
        List.get?_cons_succ, hrec]
      rw [show idx + 1 + i = idx + (i + 1) from by omega]

theorem validateMultiCutGo_explicit (vd : Option ℚ) (pattern file : Str) :
    ∀ (rows : List MultiCutInput) (idx : ℕ) (prev : ℚ) (jobs : List ClipJob) (ns : List Str),
      (∀ cut ∈ rows, explicitRowAccepts vd cut = true) →
      ∃ notices,
        validateMultiCutGo vd pattern file rows idx prev jobs ns =
          if (jobs ++ explicitJobs vd pattern file rows idx).isEmpty then none
          else some ⟨jobs ++ explicitJobs vd pattern file rows idx, notices⟩ := by
  intro rows
  induction rows with
  | nil =>
    intro idx prev jobs ns _
    refine ⟨ns, ?_⟩
    simp [validateMultiCutGo, explicitJobs]
  | cons cut rest ih =>
    intro idx prev jobs ns hall
    obtain ⟨s, e, hs0, he0, hsp, hep, hs, hlt, heff⟩ :=
      explicitRowAccepts_elim (hall cut (List.mem_cons_self _ _))
    have hstep := multiCutRowStep_explicit vd pattern file cut idx prev s e hs0 he0 hsp hep
      hs hlt heff
    have hjob : explicitRowJob vd pattern file cut idx =
        some ⟨buildOutputName pattern file idx s (effectiveEndFor vd e - s), s,
          effectiveEndFor vd e - s, "Corte ".data ++ natDigits (idx + 1)⟩ := by
      simp only [explicitRowJob, hsp, hep]
    obtain ⟨notices, hrec⟩ := ih (idx + 1) (effectiveEndFor vd e)
      (jobs ++ [⟨buildOutputName pattern file idx s (effectiveEndFor vd e - s), s,
        effectiveEndFor vd e - s, "Corte ".data ++ natDigits (idx + 1)⟩])
      (ns ++ explicitRowNotices vd e idx)
      (fun c hc => hall c (List.mem_cons_of_mem _ hc))
    refine ⟨notices, ?_⟩
    simp only [validateMultiCutGo, hstep, explicitJobs, hjob, Option.toList_some,
      List.singleton_append, List.append_assoc, List.cons_append, List.nil_append] at hrec ⊢
    exact hrec

/-- C9: multi-range validation imposes no cross-row ordering or disjointness
constraint.  For every row list whose rows each pass their own per-row checks
(`explicitRowAccepts` reads only that row), `validateMultiCut` succeeds and
emits exactly one job per row, in list order, with each job computed from its
own row alone; in particular the out-of-order, overlapping rows
(start 2, end 8) then (start 0, end 5) with total duration 10 are both
accepted, in list order. -/
theorem validateMultiCutNoCrossRowConstraint :
    (∀ (vd : Option ℚ) (pattern file : Str) (rows : List MultiCutInput),
        rows ≠ [] →
        (∀ cut ∈ rows, explicitRowAccepts vd cut = true) →
        ∃ notices,
          validateMultiCut (some file) rows vd pattern =
              some ⟨explicitJobs vd pattern file rows 0, notices⟩ ∧
            (explicitJobs vd pattern file rows 0).length = rows.length ∧
            ∀ i, (explicitJobs vd pattern file rows 0).get? i =
              (rows.get? i).bind fun cut => explicitRowJob vd pattern file cut i) ∧
    ∃ notices,
      validateMultiCut (some "v.mp4".data)
          [⟨0, "2".data, "8".data⟩, ⟨1, "0".data, "5".data⟩] (some 10) DEFAULT_NAME_PATTERN =
        some ⟨[⟨buildOutputName DEFAULT_NAME_PATTERN "v.mp4".data 0 2 6, 2, 6,
            "Corte 1".data⟩,
          ⟨buildOutputName DEFAULT_NAME_PATTERN "v.mp4".data 1 0 5, 0, 5, "Corte 2".data⟩],
          notices⟩ := by
  have main : ∀ (vd : Option ℚ) (pattern file : Str) (rows : List MultiCutInput),
      rows ≠ [] →
      (∀ cut ∈ rows, explicitRowAccepts vd cut = true) →
      ∃ notices,
        validateMultiCut (some file) rows vd pattern =
            some ⟨explicitJobs vd pattern file rows 0, notices⟩ ∧
          (explicitJobs vd pattern file rows 0).length = rows.length ∧
          ∀ i, (explicitJobs vd pattern file rows 0).get? i =
            (rows.get? i).bind fun cut => explicitRowJob vd pattern file cut i := by
    intro vd pattern file rows hne hall
    have hlen := explicitJobs_length vd pattern file rows 0 hall
    have hejne : explicitJobs vd pattern file rows 0 ≠ [] := by
      intro h0
      exact hne (List.length_eq_zero.1 (by rw [← hlen, h0]; rfl))
    obtain ⟨notices, hgo⟩ := validateMultiCutGo_explicit vd pattern file rows 0 0 [] [] hall
    refine ⟨notices, ?_, hlen, ?_⟩
    · rw [show validateMultiCut (some file) rows vd pattern =
          validateMultiCutGo vd pattern file rows 0 0 [] [] by
            simp only [validateMultiCut, isEmpty_false_of_ne_nil hne, Bool.false_eq_true,
              if_false],
        hgo]
      simp only [List.nil_append, isEmpty_false_of_ne_nil hejne, Bool.false_eq_true, if_false]
    · intro i
      have := explicitJobs_get vd pattern file rows 0 hall i
      simpa using this
  refine ⟨main, ?_⟩
  have p2 : parseTimeToSeconds (jsTrim "2".data) = some (2 : ℚ) := by
    rw [show jsTrim "2".data = "2".data from by decide,
      parseTimeToSeconds_digits (by decide) (by decide),
      show parseNat "2".data = 2 from by decide]
    norm_num
  have p8 : parseTimeToSeconds (jsTrim "8".data) = some (8 : ℚ) := by
    rw [show jsTrim "8".data = "8".data from by decide,
      parseTimeToSeconds_digits (by decide) (by decide),
      show parseNat "8".data = 8 from by decide]
    norm_num
  have p0 : parseTimeToSeconds (jsTrim "0".data) = some (0 : ℚ) := by
    rw [show jsTrim "0".data = "0".data from by decide,
      parseTimeToSeconds_digits (by decide) (by decide),
      show parseNat "0".data = 0 from by decide]
    norm_num
  have p5 : parseTimeToSeconds (jsTrim "5".data) = some (5 : ℚ) := by
    rw [show jsTrim "5".data = "5".data from by decide,
      parseTimeToSeconds_digits (by decide) (by decide),
      show parseNat "5".data = 5 from by decide]
    norm_num
  have hacc : ∀ cut ∈ ([⟨0, "2".data, "8".data⟩, ⟨1, "0".data, "5".data⟩] :
      List MultiCutInput), explicitRowAccepts (some 10) cut = true := by
    intro cut hc
    simp only [List.mem_cons, List.not_mem_nil, or_false] at hc
    rcases hc with rfl | rfl
    · simp only [explicitRowAccepts, effectiveEndFor, p2, p8,
        show (jsTrim "2".data).isEmpty = false from by decide,
        show (jsTrim "8".data).isEmpty = false from by decide]
      norm_num [DURATION_EPSILON]
    · simp only [explicitRowAccepts, effectiveEndFor, p0, p5,
        show (jsTrim "0".data).isEmpty = false from by decide,
        show (jsTrim "5".data).isEmpty = false from by decide]
      norm_num [DURATION_EPSILON]
  obtain ⟨notices, heq, -, -⟩ := main (some 10) DEFAULT_NAME_PATTERN "v.mp4".data
    [⟨0, "2".data, "8".data⟩, ⟨1, "0".data, "5".data⟩] (by simp) hacc
  refine ⟨notices, ?_⟩
  rw [heq]
  have hej : explicitJobs (some 10) DEFAULT_NAME_PATTERN "v.mp4".data
      [⟨0, "2".data, "8".data⟩, ⟨1, "0".data, "5".data⟩] 0 =
      [⟨buildOutputName DEFAULT_NAME_PATTERN "v.mp4".data 0 2 6, 2, 6, "Corte 1".data⟩,
        ⟨buildOutputName DEFAULT_NAME_PATTERN "v.mp4".data 1 0 5, 0, 5, "Corte 2".data⟩] := by
    simp only [explicitJobs, explicitRowJob, effectiveEndFor, p2, p8, p0, p5,
      Option.toList_some, List.singleton_append, List.nil_append, List.append_nil]
    norm_num [DURATION_EPSILON]
    constructor
    · decide
    · decide
  rw [hej]

/-- Witness for the C9 theorem: its general part applied to a concrete
one-row list. -/
theorem validateMultiCutNoCrossRowConstraint_witness :
    ∃ notices,
      validateMultiCut (some "a.mp4".data) [⟨0, "1".data, "3".data⟩] (some 10)
          DEFAULT_NAME_PATTERN =
        some ⟨explicitJobs (some 10) DEFAULT_NAME_PATTERN "a.mp4".data
          [⟨0, "1".data, "3".data⟩] 0, notices⟩ := by
  have p1 : parseTimeToSeconds (jsTrim "1".data) = some (1 : ℚ) := by
    rw [show jsTrim "1".data = "1".data from by decide,
      parseTimeToSeconds_digits (by decide) (by decide),
      show parseNat "1".data = 1 from by decide]
    norm_num
  have p3 : parseTimeToSeconds (jsTrim "3".data) = some (3 : ℚ) := by
    rw [show jsTrim "3".data = "3".data from by decide,
      parseTimeToSeconds_digits (by decide) (by decide),
      show parseNat "3".data = 3 from by decide]
    norm_num
  have hacc : ∀ cut ∈ ([⟨0, "1".data, "3".data⟩] : List MultiCutInput),
      explicitRowAccepts (some 10) cut = true := by
    intro cut hc
    simp only [List.mem_singleton] at hc
    subst hc
    simp only [explicitRowAccepts, effectiveEndFor, p1, p3,
      show (jsTrim "1".data).isEmpty = false from by decide,
      show (jsTrim "3".data).isEmpty = false from by decide]
    norm_num [DURATION_EPSILON]
  obtain ⟨notices, heq, -, -⟩ := validateMultiCutNoCrossRowConstraint.1 (some 10)
    DEFAULT_NAME_PATTERN "a.mp4".data [⟨0, "1".data, "3".data⟩] (by simp) hacc
  exact ⟨notices, heq⟩

/-! ### Rows starting at or past the end of the video (C2) -/

/-- C2 counterexample: the claim predicts every blank-end row whose start is
at or beyond the known total duration is skipped with a notice, but the code
also requires `startSeconds ≤ videoDurationSeconds + DURATION_EPSILON`
(line 1471): a blank-end row with start `"20"` and total duration 10 is a
hard failure, and the whole validation returns `none` even though the first
row is valid. -/
theorem multiCutPastEndCounterexample :
    jsTrim "".data = [] ∧
    parseTimeToSeconds (jsTrim "20".data) = some 20 ∧ (20 : ℚ) ≥ 10 ∧
    multiCutRowStep (some 10) DEFAULT_NAME_PATTERN "v.mp4".data ⟨1, "20".data, "".data⟩ 1 5 =
      .failRow ∧
    validateMultiCut (some "v.mp4".data)
        [⟨0, "0".data, "5".data⟩, ⟨1, "20".data, "".data⟩] (some 10) DEFAULT_NAME_PATTERN =
      none := by
  have p20 : parseTimeToSeconds (jsTrim "20".data) = some (20 : ℚ) := by
    rw [show jsTrim "20".data = "20".data from by decide,
      parseTimeToSeconds_digits (by decide) (by decide),
      show parseNat "20".data = 20 from by decide]
    norm_num
  have p0 : parseTimeToSeconds (jsTrim "0".data) = some (0 : ℚ) := by
    rw [show jsTrim "0".data = "0".data from by decide,
      parseTimeToSeconds_digits (by decide) (by decide),
      show parseNat "0".data = 0 from by decide]
    norm_num
  have p5 : parseTimeToSeconds (jsTrim "5".data) = some (5 : ℚ) := by
    rw [show jsTrim "5".data = "5".data from by decide,
      parseTimeToSeconds_digits (by decide) (by decide),
      show parseNat "5".data = 5 from by decide]
    norm_num
  have hfail : ∀ prev : ℚ, multiCutRowStep (some 10) DEFAULT_NAME_PATTERN "v.mp4".data
      ⟨1, "20".data, "".data⟩ 1 prev = .failRow := by
    intro prev
    simp only [multiCutRowStep, p20,
      show (jsTrim "20".data).isEmpty = false from by decide,
      show (jsTrim "".data).isEmpty = true from by decide,
      Option.map_some', Bool.false_and, Bool.false_eq_true, if_false, Bool.true_and,
      decide_eq_true_eq]
    norm_num [DURATION_EPSILON]
  have hstep0 : multiCutRowStep (some 10) DEFAULT_NAME_PATTERN "v.mp4".data
      ⟨0, "0".data, "5".data⟩ 0 0 =
      .accept ⟨buildOutputName DEFAULT_NAME_PATTERN "v.mp4".data 0 0
          (effectiveEndFor (some 10) 5 - 0), 0, effectiveEndFor (some 10) 5 - 0,
          "Corte ".data ++ natDigits (0 + 1)⟩
        (effectiveEndFor (some 10) 5) (explicitRowNotices (some 10) 5 0) :=
    multiCutRowStep_explicit (some 10) DEFAULT_NAME_PATTERN "v.mp4".data
      ⟨0, "0".data, "5".data⟩ 0 0 0 5 (by decide) (by decide) p0 p5 le_rfl
      (fun T hT => by rw [Option.some_inj] at hT; rw [← hT]; norm_num)
      (by norm_num [effectiveEndFor, DURATION_EPSILON])
  refine ⟨by decide, p20, by norm_num, hfail 5, ?_⟩
  simp only [validateMultiCut, List.isEmpty_cons, Bool.false_eq_true, if_false,
    validateMultiCutGo, hstep0, hfail]

/-- C2 (amended): with the total duration `T` known and a row whose
effective start `s` — the parse of an explicit start field, or the previous
end for a blank one — is at or beyond `T`: an explicit-end row is always a
hard failure (also when the start was defaulted); a blank-end row with an
explicit start is skipped with a notice when `s ≤ T + DURATION_EPSILON` and
is a hard failure when `s > T + DURATION_EPSILON`; and a fully blank row is
skipped with a notice unconditionally, as an empty row. -/
theorem multiCutPastEndAmended :
    ∀ (T : ℚ) (pattern file : Str) (cut : MultiCutInput) (idx : ℕ) (prev s : ℚ),
      (if (jsTrim cut.startInput).isEmpty then some prev
          else parseTimeToSeconds (jsTrim cut.startInput)) = some s →
      s ≥ T →
      (((jsTrim cut.endInput).isEmpty = false →
          multiCutRowStep (some T) pattern file cut idx prev = .failRow) ∧
        ((jsTrim cut.endInput).isEmpty = true →
          ((jsTrim cut.startInput).isEmpty = true →
            ∃ notices, notices ≠ [] ∧
              multiCutRowStep (some T) pattern file cut idx prev = .skip notices) ∧
          ((jsTrim cut.startInput).isEmpty = false → ¬s < 0 →
            (s ≤ T + DURATION_EPSILON →
              ∃ notices, notices ≠ [] ∧
                multiCutRowStep (some T) pattern file cut idx prev = .skip notices) ∧
            (¬s ≤ T + DURATION_EPSILON →
              multiCutRowStep (some T) pattern file cut idx prev = .failRow)))) := by
  intro T pattern file cut idx prev s heffs hgeT
  refine ⟨fun he => ?_, fun he => ⟨fun hsb => ?_, fun hs0 hneg => ⟨fun hle => ?_,
    fun hnle => ?_⟩⟩⟩
  · by_cases hsb : (jsTrim cut.startInput).isEmpty = true
    · rw [if_pos hsb, Option.some_inj] at heffs
      subst heffs
      rcases hep : parseTimeToSeconds (jsTrim cut.endInput) with _ | e
      · simp only [multiCutRowStep, hsb, he, hep, Option.map_none', Bool.and_false,
          Bool.false_eq_true, if_false, if_true]
      · by_cases hneg : prev < 0
        · simp only [multiCutRowStep, hsb, he, hep, Option.map_some', Bool.and_false,
            Bool.false_eq_true, if_false, if_true, if_pos hneg]
        · simp only [multiCutRowStep, hsb, he, hep, Option.map_some', Bool.and_false,
            Bool.false_and, Bool.false_eq_true, if_false, if_true, if_neg hneg,
            if_pos hgeT]
    · have hs0 : (jsTrim cut.startInput).isEmpty = false := by
        cases h : (jsTrim cut.startInput).isEmpty
        · rfl
        · exact absurd h hsb
      rw [if_neg (by simp [hs0])] at heffs
      rcases hep : parseTimeToSeconds (jsTrim cut.endInput) with _ | e
      · simp only [multiCutRowStep, hs0, he, heffs, hep, Option.map_none', Bool.false_and,
          Bool.false_eq_true, if_false]
      · by_cases hneg : s < 0
        · simp only [multiCutRowStep, hs0, he, heffs, hep, Option.map_some',
            Bool.false_and, Bool.false_eq_true, if_false, if_pos hneg]
        · simp only [multiCutRowStep, hs0, he, heffs, hep, Option.map_some',
            Bool.false_and, Bool.false_eq_true, if_false, if_neg hneg, if_pos hgeT]
  · refine ⟨["Corte ".data ++ natDigits (idx + 1) ++ ": fila vacía, se omite.".data],
      by simp, ?_⟩
    simp only [multiCutRowStep, hsb, he, Bool.and_self, if_true]
  · rw [if_neg (by simp [hs0])] at heffs
    refine ⟨["Corte ".data ++ natDigits (idx + 1) ++ ": fin vacío, se usa ".data ++
        formatSecondsToTime T true ++ ".".data,
      "Corte ".data ++ natDigits (idx + 1) ++
        ": inicia en el final del video, se omite.".data], by simp, ?_⟩
    simp only [multiCutRowStep, hs0, he, heffs, Option.map_some', Bool.false_and,
      Bool.false_eq_true, if_false, if_true, Bool.true_and, decide_eq_true_eq,
      if_neg hneg, if_pos hgeT, if_pos hle, List.nil_append, List.singleton_append]
  · rw [if_neg (by simp [hs0])] at heffs
    simp only [multiCutRowStep, hs0, he, heffs, Option.map_some', Bool.false_and,
      Bool.false_eq_true, if_false, if_true, Bool.true_and, decide_eq_true_eq,
      if_neg hneg, if_pos hgeT, if_neg hnle]

/-- Witness for the C2 amended theorem: a blank-end row starting exactly at
the total duration (start `"10"`, T = 10) is skipped with a notice. -/
theorem multiCutPastEndAmended_witness :
    ∃ notices, notices ≠ [] ∧
      multiCutRowStep (some 10) DEFAULT_NAME_PATTERN "v.mp4".data
        ⟨0, "10".data, "".data⟩ 0 0 = .skip notices := by
  have p10 : parseTimeToSeconds (jsTrim "10".data) = some (10 : ℚ) := by
    rw [show jsTrim "10".data = "10".data from by decide,
      parseTimeToSeconds_digits (by decide) (by decide),
      show parseNat "10".data = 10 from by decide]
    norm_num
  exact (multiCutPastEndAmended 10 DEFAULT_NAME_PATTERN "v.mp4".data
      ⟨0, "10".data, "".data⟩ 0 0 10
      (by rw [if_neg (by decide)]; exact p10) le_rfl).2 (by decide) |>.2 (by decide)
    (by norm_num) |>.1 (by norm_num [DURATION_EPSILON])

/-! ### Queue cancellation (C8) -/

theorem processJobsGo_cancel (cancelledAt : ℕ → Bool) (k : ℕ)
    (hk : cancelledAt k = true) (hlt : ∀ i, i < k → cancelledAt i = false) :
    ∀ (jobs : List ClipJob) (idx : ℕ) (outputs : List ClipJob), idx ≤ k →
      processJobsGo cancelledAt jobs idx outputs =
        if k - idx < jobs.length then
          (outputs ++ jobs.take (k - idx), .interrupted CANCEL_MESSAGE)
        else (outputs ++ jobs, .completed) := by
  intro jobs
  induction jobs with
  | nil =>
    intro idx outputs _
    simp [processJobsGo]
  | cons job rest ih =>
    intro idx outputs hidx
    rcases Nat.lt_or_ge idx k with hlt2 | hge
    · have hflag : cancelledAt idx = false := hlt idx hlt2
      have hrec := ih (idx + 1) (outputs ++ [job]) hlt2
      have hk1 : k - idx = (k - (idx + 1)) + 1 := by omega
      simp only [processJobsGo, hflag, Bool.false_eq_true, if_false, hrec, hk1,
        List.length_cons, List.take_succ_cons, Nat.add_lt_add_iff_right,
        List.append_assoc, List.singleton_append, List.cons_append, List.nil_append]
    · have hidx2 : idx = k := le_antisymm hidx hge
      subst hidx2
      simp [processJobsGo, hk]

/-- C8: once the cancel flag is observed at the gate before job `k`, no
further job starts: the outputs are exactly the first `k` jobs and the run
ends interrupted by the cancellation message (or completes normally if every
job was already done); in particular a 3-job run whose cancel flag is set
after job 1 completes yields exactly the one already-produced output, the
cancellation status, and never the 3rd job's output. -/
theorem processJobsCancellation :
    (∀ (cancelledAt : ℕ → Bool) (jobs : List ClipJob) (k : ℕ),
        cancelledAt k = true → (∀ i, i < k → cancelledAt i = false) →
        processJobs cancelledAt jobs =
          if k < jobs.length then (jobs.take k, .interrupted CANCEL_MESSAGE)
          else (jobs, .completed)) ∧
      ∀ (j0 j1 j2 : ClipJob),
        processJobs (fun i => decide (1 ≤ i)) [j0, j1, j2] =
          ([j0], .interrupted CANCEL_MESSAGE) := by
  have main : ∀ (cancelledAt : ℕ → Bool) (jobs : List ClipJob) (k : ℕ),
      cancelledAt k = true → (∀ i, i < k → cancelledAt i = false) →
      processJobs cancelledAt jobs =
        if k < jobs.length then (jobs.take k, .interrupted CANCEL_MESSAGE)
        else (jobs, .completed) := by
    intro cancelledAt jobs k hk hlt
    have := processJobsGo_cancel cancelledAt k hk hlt jobs 0 [] (Nat.zero_le k)
    simpa [processJobs] using this
  refine ⟨main, ?_⟩
  intro j0 j1 j2
  have h1 : (fun i => decide (1 ≤ i)) 1 = true := by decide
  have h2 : ∀ i, i < 1 → (fun i => decide (1 ≤ i)) i = false := by
    intro i hi
    have : i = 0 := Nat.lt_one_iff.1 hi
    subst this
    decide
  rw [main (fun i => decide (1 ≤ i)) [j0, j1, j2] 1 h1 h2]
  norm_num

end VideoEditor
